import Mathlib

/-!
Option parsing of `ag` (src/options.c).

A shallow embedding of `init_options` and `parse_options`, together with the
library routines they call (`getopt_long`, `atoi`, `strdup`, `strlen`,
`isatty`, `pcre_compile`), followed by theorems about the configuration that
`parse_options` hands back to its caller.

Conventions.

* The C `int` fields of `cli_options` and the `int` locals of `parse_options`
  are `Int`; a field is "true" when it is not `0`.
* `argv` is a `List String` whose head is the program name; `argc` is its length.
* Everything the function reads from outside its arguments is gathered in `Env`.
* A run of `parse_options` ends in one of three ways, see `outcome`.
-/

namespace Ag

/-! ## Data model

The header options.h is not among the sources; the record is taken from the spec's
data model, under the field names that `init_options` assigns. -/

/-- Modelled from the spec: the compiled regular expression behind the `pcre *` of
`opts.ackmate_dir_filter` (the type comes from the regex library through options.h). -/
structure pcre where
  id : Nat
deriving DecidableEq, Repr

/-- Modelled from the spec: the enumeration of options.h behind `casing`, with the two
values SENSITIVE and INSENSITIVE under the names options.c uses. -/
inductive case_behavior
  | CASE_SENSITIVE
  | CASE_INSENSITIVE
deriving DecidableEq, Repr

/-- Modelled from the spec: the record type of the global `opts`, declared in options.h.
One field per assignment of `init_options`; the flags are C `int`s. -/
structure cli_options where
  ackmate : Int
  ackmate_dir_filter : Option pcre
  after : Int
  before : Int
  casing : case_behavior
  color : Int
  column : Int
  context : Int
  follow_symlinks : Int
  invert_match : Int
  literal : Int
  print_break : Int
  print_filename_only : Int
  print_heading : Int
  recurse_dirs : Int
  stats : Int
deriving DecidableEq, Repr

/-- The function `init_options` (options.c lines 40-57). -/
def init_options : cli_options where
  ackmate := 0
  ackmate_dir_filter := none
  after := 0
  before := 0
  casing := case_behavior.CASE_SENSITIVE
  color := 1
  column := 0
  context := 0
  follow_symlinks := 0
  invert_match := 0
  literal := 0
  print_break := 1
  print_filename_only := 0
  print_heading := 1
  recurse_dirs := 1
  stats := 0

/-! ## What the function reads from its surroundings -/

/-- The surroundings of one call of `parse_options`.

* `isatty`: whether `isatty(fileno(stdout))` is non-zero.
* `posixly_correct`: whether `POSIXLY_CORRECT` is set, which makes `getopt_long`
  stop at the first non-option instead of permuting.
* `pcre_compile`: the regex compiler; on failure it yields the message and the offset
  it stores through `&pcre_err` and `&pcre_err_offset`.
* `path_cell i`: the pointer-sized word that the expression `path[i]` reads, `path`
  being the `char **` out-parameter. Index `0` is the pointer that `strdup` has
  just stored in `*path`; higher indices are whatever the caller keeps behind
  that variable. -/
structure Env where
  isatty : Bool
  posixly_correct : Bool
  pcre_compile : String → Except (String × Int) pcre
  path_cell : Nat → Nat

/-! ## Library routines -/

/-- The C `isspace` in the "C" locale. -/
def isspace (c : Char) : Bool :=
  c = ' ' || c = '\t' || c = '\n' || c = '\x0b' || c = '\x0c' || c = '\r'

/-- Value of a run of decimal digits, most significant first. -/
def digits_value (ds : List Char) : Nat :=
  ds.foldl (fun acc c => 10 * acc + (c.toNat - 48)) 0

/-- Saturation of `strtol` at `LONG_MIN` and `LONG_MAX` (64-bit `long`). -/
def clamp_long (v : Int) : Int :=
  if v < -(2 ^ 63) then -(2 ^ 63) else if 2 ^ 63 - 1 < v then 2 ^ 63 - 1 else v

/-- Conversion of a `long` to a 32-bit two's complement `int`. -/
def to_int (v : Int) : Int :=
  (v + 2 ^ 31) % 2 ^ 32 - 2 ^ 31

/-- The optional sign in front of the digits: whether it is a minus, and the rest. -/
def read_sign : List Char → Bool × List Char
  | '-' :: r => (true, r)
  | '+' :: r => (false, r)
  | r => (false, r)

/-- The C library `atoi`, that is `(int) strtol(s, NULL, 10)`: leading white space is
skipped, an optional sign is read, then the longest run of decimal digits; no digits
give `0`. Values outside `long` saturate and the result is cut to 32 bits. -/
def atoi (s : String) : Int :=
  let body := read_sign (s.toList.dropWhile isspace)
  let v : Int := digits_value (body.2.takeWhile Char.isDigit)
  to_int (clamp_long (if body.1 then -v else v))

/-- The C library `strlen`: the number of bytes before the terminating NUL. -/
def strlen (s : String) : Nat :=
  s.utf8ByteSize

/-! ## The option registry (options.c lines 77-105) -/

/-- The `has_arg` member of `struct option`. -/
inductive arg_kind
  | no_argument
  | required_argument
  | optional_argument
deriving DecidableEq, Repr

/-- The `int` variables whose address appears in the `flag` column of `longopts`. -/
inductive flag_target
  | opts_ackmate
  | opts_print_break
  | opts_color
  | opts_column
  | opts_context
  | opts_follow_symlinks
  | group
  | opts_invert_match
  | opts_print_heading
  | help
  | opts_literal
  | useless
  | opts_stats
  | version
deriving DecidableEq, Repr

/-- One row of the table, `struct option`; a `NULL` flag is `none`. -/
structure option where
  name : String
  has_arg : arg_kind
  flag : Option flag_target
  val : Int
deriving DecidableEq, Repr

/-- The table `longopts`, in source order; the closing all-zero row is the end of the list. -/
def longopts : List option :=
  [ ⟨"ackmate", arg_kind.no_argument, some flag_target.opts_ackmate, 1⟩,
    ⟨"ackmate-dir-filter", arg_kind.required_argument, none, 0⟩,
    ⟨"after", arg_kind.required_argument, none, 65⟩,
    ⟨"before", arg_kind.required_argument, none, 66⟩,
    ⟨"break", arg_kind.no_argument, some flag_target.opts_print_break, 1⟩,
    ⟨"nobreak", arg_kind.no_argument, some flag_target.opts_print_break, 0⟩,
    ⟨"color", arg_kind.no_argument, some flag_target.opts_color, 1⟩,
    ⟨"column", arg_kind.no_argument, some flag_target.opts_column, 1⟩,
    ⟨"nocolor", arg_kind.no_argument, some flag_target.opts_color, 0⟩,
    ⟨"context", arg_kind.optional_argument, some flag_target.opts_context, 2⟩,
    ⟨"debug", arg_kind.no_argument, none, 68⟩,
    ⟨"follow", arg_kind.no_argument, some flag_target.opts_follow_symlinks, 1⟩,
    ⟨"group", arg_kind.no_argument, some flag_target.group, 1⟩,
    ⟨"nogroup", arg_kind.no_argument, some flag_target.group, 0⟩,
    ⟨"invert-match", arg_kind.no_argument, some flag_target.opts_invert_match, 1⟩,
    ⟨"nofollow", arg_kind.no_argument, some flag_target.opts_follow_symlinks, 0⟩,
    ⟨"heading", arg_kind.no_argument, some flag_target.opts_print_heading, 1⟩,
    ⟨"noheading", arg_kind.no_argument, some flag_target.opts_print_heading, 0⟩,
    ⟨"help", arg_kind.no_argument, some flag_target.help, 1⟩,
    ⟨"ignore-case", arg_kind.no_argument, none, 105⟩,
    ⟨"literal", arg_kind.no_argument, some flag_target.opts_literal, 1⟩,
    ⟨"match", arg_kind.no_argument, some flag_target.useless, 0⟩,
    ⟨"smart-case", arg_kind.no_argument, some flag_target.useless, 0⟩,
    ⟨"stats", arg_kind.no_argument, some flag_target.opts_stats, 1⟩,
    ⟨"nosmart-case", arg_kind.no_argument, some flag_target.useless, 0⟩,
    ⟨"version", arg_kind.no_argument, some flag_target.version, 1⟩ ]

/-- The short option string handed to `getopt_long`. -/
def optstring : String := "A:B:C:DfivV"

/-! ## `getopt_long`

The C library routine, after its manual: options may be clustered behind one dash, an
argument may be attached (`-A3`, `--after=3`) or follow as the next element, a long
name may be abbreviated as long as it stays unambiguous, and an exact name always wins.
-/

/-- One return of `getopt_long` other than the final `-1`: the returned `int`, the
value left in `optarg`, and the index stored through `&opt_index` when a long option
was recognised. -/
structure getopt_result where
  ch : Int
  optarg : Option String
  longind : Option Nat
deriving DecidableEq, Repr

/-- The return value for an unknown option, a missing argument or an unwanted one:
the character `?`. (The line that `getopt_long` itself writes to standard error on
these occasions is left out.) -/
def getopt_error : getopt_result :=
  ⟨63, none, none⟩

/-- Search of a letter in an option string: `none` when the letter is not an option,
otherwise whether a colon follows it (the option takes an argument). -/
def short_lookup : List Char → Char → Option Bool
  | [], _ => none
  | o :: rest, c =>
    if c = ':' ∨ c = ';' then none
    else if o = c then some (rest.head? = some ':')
    else short_lookup rest c

/-- Scan of the letters of one argv element that starts with a single dash. `next` is
the argv element behind it. Returns what `getopt_long` reports for each letter in turn
and whether the element behind was taken as an argument. -/
def scan_short (next : Option String) : List Char → List getopt_result × Bool
  | [] => ([], false)
  | c :: rest =>
    match short_lookup optstring.toList c with
    | none => (getopt_error :: (scan_short next rest).1, (scan_short next rest).2)
    | some false =>
      (⟨c.toNat, none, none⟩ :: (scan_short next rest).1, (scan_short next rest).2)
    | some true =>
      match rest with
      | _ :: _ => ([⟨c.toNat, some (String.mk rest), none⟩], false)
      | [] =>
        match next with
        | some a => ([⟨c.toNat, some a, none⟩], true)
        | none => ([getopt_error], false)

/-- Indices of the rows whose name starts with the given text. -/
def abbreviations (name : List Char) : List option → Nat → List Nat
  | [], _ => []
  | o :: rest, i =>
    if name.isPrefixOf o.name.toList then i :: abbreviations name rest (i + 1)
    else abbreviations name rest (i + 1)

/-- Index of the first row whose name is exactly the given text. -/
def exact_match (name : List Char) : List option → Nat → Option Nat
  | [], _ => none
  | o :: rest, i => if o.name.toList = name then some i else exact_match name rest (i + 1)

/-- Row `i` of a table; the closing all-zero row stands for every index past the end. -/
def table_row (table : List option) (i : Nat) : option :=
  table.getD i ⟨"", arg_kind.no_argument, none, 0⟩

/-- Two rows that `getopt_long` does not tell apart when both are abbreviated. -/
def same_effect (a b : option) : Bool :=
  a.has_arg = b.has_arg && a.flag = b.flag && a.val = b.val

/-- Resolution of a long option name: an exact match wins, otherwise the name must
abbreviate one row only (or rows of the same effect); `none` is an unknown or
ambiguous name. -/
def long_lookup (table : List option) (name : List Char) : Option Nat :=
  match exact_match name table 0 with
  | some i => some i
  | none =>
    match abbreviations name table 0 with
    | [] => none
    | i :: others =>
      if others.all (fun j => same_effect (table_row table i) (table_row table j))
      then some i else none

/-- Text after the first `=` of a long option, if there is one. -/
def attached_value (body : List Char) : Option String :=
  match body.dropWhile (fun c => c != '=') with
  | [] => none
  | _ :: v => some (String.mk v)

/-- The `int` that `getopt_long` returns for a recognised row: `0` when the row has a
flag pointer (the pointer target is set by `getopt_long` itself), else the row's `val`. -/
def long_return (o : option) : Int :=
  match o.flag with
  | some _ => 0
  | none => o.val

/-- Scan of one argv element that starts with two dashes (`body` is the text behind
them). Returns the report of `getopt_long` and whether the element behind was taken
as an argument. -/
def scan_long (next : Option String) (body : List Char) : getopt_result × Bool :=
  match long_lookup longopts (body.takeWhile (fun c => c != '=')) with
  | none => (getopt_error, false)
  | some i =>
    match attached_value body with
    | some v =>
      if (table_row longopts i).has_arg = arg_kind.no_argument then (getopt_error, false)
      else (⟨long_return (table_row longopts i), some v, some i⟩, false)
    | none =>
      if (table_row longopts i).has_arg = arg_kind.required_argument then
        match next with
        | some a => (⟨long_return (table_row longopts i), some a, some i⟩, true)
        | none => (getopt_error, false)
      else (⟨long_return (table_row longopts i), none, some i⟩, false)

/-- All calls of `getopt_long(argc, argv, "A:B:C:DfivV", longopts, &opt_index)` up to
the one that returns `-1`, over the argv elements behind the program name.

Returns the successive reports and the elements found at `argv + optind` afterwards.
`taken` says that the head element was already used up as the argument of the option
in front of it. `skipped` holds the non-options passed over so far: in the default mode
they are moved behind the options, keeping their order; `--` ends the scan; a lone `-`
is a non-option. The reports depend on `argv` only, never on what the caller does
between two calls. -/
def getopt_long (posix : Bool) :
    Bool → List String → List String → List getopt_result × List String
  | _, [], skipped => ([], skipped)
  | true, _ :: rest, skipped => getopt_long posix false rest skipped
  | false, a :: rest, skipped =>
    match a.toList with
    | ['-', '-'] => ([], skipped ++ rest)
    | '-' :: '-' :: body =>
      ((scan_long rest.head? body).1 ::
          (getopt_long posix (scan_long rest.head? body).2 rest skipped).1,
        (getopt_long posix (scan_long rest.head? body).2 rest skipped).2)
    | '-' :: c :: cs =>
      ((scan_short rest.head? (c :: cs)).1 ++
          (getopt_long posix (scan_short rest.head? (c :: cs)).2 rest skipped).1,
        (getopt_long posix (scan_short rest.head? (c :: cs)).2 rest skipped).2)
    | _ =>
      if posix then ([], skipped ++ a :: rest)
      else getopt_long posix false rest (skipped ++ [a])

/-! ## `parse_options` (options.c lines 65-214) -/

/-- What a run writes: the text of `usage()`, the line of `print_version()`, or one
message handed to `log_err`. -/
inductive output
  | usage
  | version
  | log_err (msg : String)
deriving DecidableEq, Repr

/-- The ways a run can leave the behaviour of the program undefined. -/
inductive undefined_behavior
  /-- A null `optarg` handed to `atoi` or `pcre_compile`. -/
  | null_optarg
  /-- The call `strdup(argv[0])` when `argv[0]` is the null pointer closing `argv`. -/
  | null_query
  /-- The store `*path[path_len - 1] = 0` through the word read from `path[path_len - 1]`. -/
  | wild_store
deriving DecidableEq, Repr

/-- What the caller receives: the global `opts`, `*query`, `*path`, and whether
`set_log_level(LOG_LEVEL_DEBUG)` was called. -/
structure parse_result where
  opts : cli_options
  query : String
  path : String
  log_level_debug : Bool
deriving DecidableEq, Repr

/-- End of a run of `parse_options`: the process ended through `exit(status)` after
writing `out`, or the function returned, or the behaviour became undefined. -/
inductive outcome
  | exited (status : Int) (out : List output)
  | returned (r : parse_result)
  | undefined (u : undefined_behavior)
deriving DecidableEq, Repr

/-- The global `opts` and the locals of `parse_options` that the option loop writes. -/
structure parse_state where
  opts : cli_options
  useless : Int
  group : Int
  help : Int
  version : Int
  opt_index : Nat
  log_level_debug : Bool
deriving DecidableEq, Repr

/-- State at the head of the loop: `init_options()` has run, `group = 1`, the other
locals are `0`. -/
def initial_state : parse_state where
  opts := init_options
  useless := 0
  group := 1
  help := 0
  version := 0
  opt_index := 0
  log_level_debug := false

/-- The store `*flag = val` that `getopt_long` performs for a row with a flag pointer. -/
def set_flag (st : parse_state) (t : flag_target) (v : Int) : parse_state :=
  match t with
  | flag_target.opts_ackmate => { st with opts := { st.opts with ackmate := v } }
  | flag_target.opts_print_break => { st with opts := { st.opts with print_break := v } }
  | flag_target.opts_color => { st with opts := { st.opts with color := v } }
  | flag_target.opts_column => { st with opts := { st.opts with column := v } }
  | flag_target.opts_context => { st with opts := { st.opts with context := v } }
  | flag_target.opts_follow_symlinks =>
    { st with opts := { st.opts with follow_symlinks := v } }
  | flag_target.group => { st with group := v }
  | flag_target.opts_invert_match => { st with opts := { st.opts with invert_match := v } }
  | flag_target.opts_print_heading => { st with opts := { st.opts with print_heading := v } }
  | flag_target.help => { st with help := v }
  | flag_target.opts_literal => { st with opts := { st.opts with literal := v } }
  | flag_target.useless => { st with useless := v }
  | flag_target.opts_stats => { st with opts := { st.opts with stats := v } }
  | flag_target.version => { st with version := v }

/-- What one call of `getopt_long` writes into the caller's variables: `opt_index` and,
for a row with a flag pointer, the pointer target. -/
def getopt_effect (st : parse_state) (r : getopt_result) : parse_state :=
  match r.longind with
  | none => st
  | some i =>
    match (table_row longopts i).flag with
    | some t => set_flag { st with opt_index := i } t (table_row longopts i).val
    | none => { st with opt_index := i }

/-- The message of line 149. -/
def pcre_message (offset : Int) (err : String) : String :=
  "pcre_compile of ackmate-dir-filter failed at position " ++ toString offset ++
    ". Error: " ++ err

/-- The message of line 158. -/
def no_value_message (name : String) : String :=
  "option " ++ name ++ " does not take a value"

/-- An assignment to one field of the global `opts`. -/
def set_opts (st : parse_state) (f : cli_options → cli_options) : parse_state :=
  { st with opts := f st.opts }

/-- Use of `optarg` by `atoi` or `pcre_compile`, which must not be handed a null pointer. -/
def with_optarg (optarg : Option String) (k : String → Except outcome parse_state) :
    Except outcome parse_state :=
  match optarg with
  | some a => k a
  | none => Except.error (outcome.undefined undefined_behavior.null_optarg)

/-- Lines 144-158, the arm `case 0` up to the point where it falls into `default`. -/
def case_long_option (env : Env) (st : parse_state) (r : getopt_result) :
    Except outcome parse_state :=
  if (table_row longopts st.opt_index).name = "ackmate-dir-filter" then
    with_optarg r.optarg (fun a =>
      match env.pcre_compile a with
      | Except.ok re => Except.ok (set_opts st (fun o => { o with ackmate_dir_filter := some re }))
      | Except.error e =>
        Except.error (outcome.exited 1 [output.log_err (pcre_message e.2 e.1)]))
  else if (table_row longopts st.opt_index).flag ≠ none then
    Except.ok st
  else
    Except.error (outcome.exited 1
      [output.log_err (no_value_message (table_row longopts st.opt_index).name),
        output.usage])

/-- The arms of the `switch (ch)` of lines 116-162. -/
inductive switch_arm
  | case_A
  | case_B
  | case_C
  | case_D
  | case_f
  | case_h
  | case_i
  | case_v
  | case_V
  | case_0
  | default
deriving DecidableEq, Repr

/-- The arm that `switch (ch)` jumps to: the labels are the letters `A B C D f h i v V`
(65, 66, 67, 68, 102, 104, 105, 118, 86) and `0`. -/
def select_arm (ch : Int) : switch_arm :=
  if ch = 65 then switch_arm.case_A
  else if ch = 66 then switch_arm.case_B
  else if ch = 67 then switch_arm.case_C
  else if ch = 68 then switch_arm.case_D
  else if ch = 102 then switch_arm.case_f
  else if ch = 104 then switch_arm.case_h
  else if ch = 105 then switch_arm.case_i
  else if ch = 118 then switch_arm.case_v
  else if ch = 86 then switch_arm.case_V
  else if ch = 0 then switch_arm.case_0
  else switch_arm.default

/-- The `switch (ch)` of lines 116-162: the next state, or the end of the run. -/
def switch_ch (env : Env) (st : parse_state) (r : getopt_result) :
    Except outcome parse_state :=
  match select_arm r.ch with
  | switch_arm.case_A =>
    with_optarg r.optarg (fun a => Except.ok (set_opts st (fun o => { o with after := atoi a })))
  | switch_arm.case_B =>
    with_optarg r.optarg (fun a => Except.ok (set_opts st (fun o => { o with before := atoi a })))
  | switch_arm.case_C =>
    with_optarg r.optarg (fun a => Except.ok (set_opts st (fun o => { o with context := atoi a })))
  | switch_arm.case_D => Except.ok { st with log_level_debug := true }
  | switch_arm.case_f => Except.ok (set_opts st (fun o => { o with print_filename_only := 1 }))
  | switch_arm.case_h => Except.ok { st with help := 1 }
  | switch_arm.case_i =>
    Except.ok (set_opts st (fun o => { o with casing := case_behavior.CASE_INSENSITIVE }))
  | switch_arm.case_v => Except.ok (set_opts st (fun o => { o with invert_match := 1 }))
  | switch_arm.case_V => Except.ok { st with version := 1 }
  | switch_arm.case_0 => case_long_option env st r
  | switch_arm.default => Except.error (outcome.exited 1 [output.usage])

/-- The `while` loop of line 115 over the successive reports of `getopt_long`. -/
def option_loop (env : Env) : parse_state → List getopt_result → Except outcome parse_state
  | st, [] => Except.ok st
  | st, r :: rs =>
    match switch_ch env (getopt_effect st r) r with
    | Except.ok st2 => option_loop env st2 rs
    | Except.error o => Except.error o

/-- Lines 168-175: `group` decides `print_heading` and `print_break` together. -/
def apply_group (group : Int) (o : cli_options) : cli_options :=
  if group ≠ 0 then { o with print_heading := 1, print_break := 1 }
  else { o with print_heading := 0, print_break := 0 }

/-- Lines 187-190. -/
def apply_context (o : cli_options) : cli_options :=
  if o.context > 0 then { o with before := o.context, after := o.context } else o

/-- Lines 192-195. -/
def apply_ackmate (o : cli_options) : cli_options :=
  if o.ackmate ≠ 0 then { o with color := 0, print_break := 1 } else o

/-- Lines 197-199. -/
def apply_isatty (env : Env) (o : cli_options) : cli_options :=
  if env.isatty then o else { o with color := 0 }

/-- Lines 201-213, with `args` the elements at `argv` once `argv += optind` is done and
`argc` their number.

`path` is a `char **`, so `path[path_len - 1]` is a pointer-sized word next to the
caller's variable, not a character of the string, and `*path[path_len - 1] = 0` stores
through that word. The word is compared with the character `/`, the number 47; the
string duplicated into `*path` is never written. -/
def extract_positionals (env : Env) (st : parse_state) (o : cli_options) :
    List String → outcome
  | [] => outcome.undefined undefined_behavior.null_query
  | query :: [] => outcome.returned ⟨o, query, ".", st.log_level_debug⟩
  | query :: path :: _ =>
    if 0 < strlen path ∧ env.path_cell (strlen path - 1) = 47 then
      outcome.undefined undefined_behavior.wild_store
    else outcome.returned ⟨o, query, path, st.log_level_debug⟩

/-- Lines 168-199: the rewriting of `opts` behind the option loop, in source order
(the `help` and `version` exits of lines 177-185 touch no field). -/
def normalize (env : Env) (st : parse_state) : cli_options :=
  apply_isatty env (apply_ackmate (apply_context (apply_group st.group st.opts)))

/-- Lines 165-213: everything behind the option loop. -/
def after_loop (env : Env) (st : parse_state) (args : List String) : outcome :=
  let grouped := apply_group st.group st.opts
  if st.help ≠ 0 then outcome.exited 0 [output.usage]
  else if st.version ≠ 0 then outcome.exited 0 [output.version]
  else
    extract_positionals env st (apply_isatty env (apply_ackmate (apply_context grouped))) args

/-- The reports of `getopt_long` over a whole argument vector. -/
def option_reports (env : Env) (argv : List String) : List getopt_result :=
  (getopt_long env.posixly_correct false argv.tail []).1

/-- The positional tokens: what is left at `argv` after `argv += optind`. -/
def remaining_args (env : Env) (argv : List String) : List String :=
  (getopt_long env.posixly_correct false argv.tail []).2

/-- The function `parse_options(argc, argv, &query, &path)`. -/
def parse_options (env : Env) (argv : List String) : outcome :=
  if argv.length < 2 then outcome.exited 1 [output.usage]
  else
    match option_loop env initial_state (option_reports env argv) with
    | Except.error o => o
    | Except.ok st => after_loop env st (remaining_args env argv)

/-! ## Vocabulary of the statements -/

/-- Surroundings used for the concrete runs below: standard output is a terminal (or
not, as asked), `POSIXLY_CORRECT` is unset, the regex compiler rejects exactly the
pattern `(`, and every word next to the caller's `path` variable holds 4096. -/
def sample_env (tty : Bool) : Env where
  isatty := tty
  posixly_correct := false
  pcre_compile := fun s =>
    if s = "(" then Except.error ("missing )", 1) else Except.ok ⟨0⟩
  path_cell := fun _ => 4096

/-- The report comes from the long option of that name. -/
def reports_long (name : String) (r : getopt_result) : Bool :=
  r.longind.map (fun i => (table_row longopts i).name) == some name

/-- The long option of that name was given: one of the reports comes from it. -/
def long_given (name : String) (rs : List getopt_result) : Prop :=
  ∃ r ∈ rs, reports_long name r = true

instance (name : String) (rs : List getopt_result) : Decidable (long_given name rs) :=
  inferInstanceAs (Decidable (∃ r ∈ rs, reports_long name r = true))

/-- The reports that come from `--group` or `--nogroup`, in order. -/
def group_flags (rs : List getopt_result) : List getopt_result :=
  rs.filter (fun r => reports_long "group" r || reports_long "nogroup" r)

/-- The last of the `--group`/`--nogroup` flags is `--nogroup`. -/
def nogroup_last (rs : List getopt_result) : Prop :=
  ∃ r, (group_flags rs).getLast? = some r ∧ reports_long "nogroup" r = true

instance (rs : List getopt_result) : Decidable (nogroup_last rs) :=
  match h : (group_flags rs).getLast? with
  | none => isFalse (by rintro ⟨r, hr, _⟩; rw [h] at hr; cases hr)
  | some r =>
    if hn : reports_long "nogroup" r = true then isTrue ⟨r, h, hn⟩
    else isFalse (by rintro ⟨r2, hr, h2⟩; rw [h] at hr; cases hr; exact hn h2)

/-- The value of the local `group` that a list of reports leaves behind, starting
from `g`: `1` or `0` after a last `--group` or `--nogroup`, else `g`. -/
def group_after (rs : List getopt_result) (g : Int) : Int :=
  match (group_flags rs).getLast? with
  | none => g
  | some r => if reports_long "group" r = true then 1 else 0

/-- The text ends in the character `/`. -/
def ends_in_slash (s : String) : Prop :=
  s.toList.getLast? = some '/'

instance (s : String) : Decidable (ends_in_slash s) :=
  inferInstanceAs (Decidable (s.toList.getLast? = some '/'))

/-- The token is read as a positional one wherever it stands: it does not start with
a dash. -/
def plain_token (s : String) : Prop :=
  s.toList.head? ≠ some '-'

instance (s : String) : Decidable (plain_token s) :=
  inferInstanceAs (Decidable (s.toList.head? ≠ some '-'))

/-- The text has no leading decimal integer: behind optional white space and an
optional sign there is no digit. -/
def non_numeric (a : String) : Prop :=
  (read_sign (a.toList.dropWhile isspace)).2.head?.map Char.isDigit ≠ some true

instance (a : String) : Decidable (non_numeric a) :=
  inferInstanceAs
    (Decidable ((read_sign (a.toList.dropWhile isspace)).2.head?.map Char.isDigit ≠ some true))

/-- The reports that come from `--color` or `--nocolor`, in order. -/
def color_flags (rs : List getopt_result) : List getopt_result :=
  rs.filter (fun r => reports_long "color" r || reports_long "nocolor" r)

/-- Either no `--color`/`--nocolor` flag was given or the last of them is `--color`. -/
def color_left_on (rs : List getopt_result) : Prop :=
  color_flags rs = [] ∨
    ∃ r, (color_flags rs).getLast? = some r ∧ reports_long "color" r = true

/-- The value of `opts.color` that a list of reports leaves behind, starting from `c`:
`1` or `0` after a last `--color` or `--nocolor`, else `c`. -/
def color_after (rs : List getopt_result) (c : Int) : Int :=
  match (color_flags rs).getLast? with
  | none => c
  | some r => if reports_long "color" r = true then 1 else 0

/-- The argument text of the report, if any, is read by `atoi` as a number that is
not negative. -/
def count_not_negative (r : getopt_result) : Bool :=
  match r.optarg with
  | some a => decide (0 ≤ atoi a)
  | none => true

/-- Every value given to `-A`/`--after` and `-B`/`--before` is read by `atoi` as a
number that is not negative. -/
def line_counts_not_negative (rs : List getopt_result) : Prop :=
  ∀ r ∈ rs, select_arm r.ch = switch_arm.case_A ∨ select_arm r.ch = switch_arm.case_B →
    count_not_negative r = true

instance (rs : List getopt_result) : Decidable (line_counts_not_negative rs) :=
  inferInstanceAs (Decidable (∀ r ∈ rs,
    select_arm r.ch = switch_arm.case_A ∨ select_arm r.ch = switch_arm.case_B →
      count_not_negative r = true))

/-- What `getopt_long` can report: for a short option a letter (never `0`), with an
argument for the letters `A`, `B` and `C`; for a long option a row of the table, the
`int` that goes with the row, and an argument when the row requires one. -/
def report_wf (r : getopt_result) : Prop :=
  match r.longind with
  | none => r.ch ≠ 0 ∧ (r.ch = 65 ∨ r.ch = 66 ∨ r.ch = 67 → r.optarg ≠ none)
  | some i =>
    i < longopts.length ∧ r.ch = long_return (table_row longopts i) ∧
      ((table_row longopts i).has_arg = arg_kind.required_argument → r.optarg ≠ none)

/-- The reports that come from `--ackmate-dir-filter`, in order. -/
def filter_flags (rs : List getopt_result) : List getopt_result :=
  rs.filter (fun r => reports_long "ackmate-dir-filter" r)

/-! ## Lemmas on the pieces of `parse_options` -/

theorem extract_positionals_returned {env : Env} {st : parse_state} {o : cli_options}
    {args : List String} {r : parse_result}
    (h : extract_positionals env st o args = outcome.returned r) :
    r.opts = o ∧ r.log_level_debug = st.log_level_debug ∧ args[0]? = some r.query ∧
      r.path = (args[1]?).getD "." := by
  match args, h with
  | [q], h =>
    simp only [extract_positionals, outcome.returned.injEq] at h
    subst h
    simp
  | q :: p :: rest, h =>
    simp only [extract_positionals] at h
    split_ifs at h
    simp only [outcome.returned.injEq] at h
    subst h
    simp

theorem with_optarg_error {x : Option String} {k : String → Except outcome parse_state}
    {o : outcome} (h : with_optarg x k = Except.error o) :
    o = outcome.undefined undefined_behavior.null_optarg ∨
      ∃ a, x = some a ∧ k a = Except.error o := by
  cases x with
  | none =>
    left
    simp only [with_optarg, Except.error.injEq] at h
    exact h.symm
  | some a => exact Or.inr ⟨a, rfl, h⟩

theorem with_optarg_ok {x : Option String} {k : String → Except outcome parse_state}
    {st : parse_state} (h : with_optarg x k = Except.ok st) :
    ∃ a, x = some a ∧ k a = Except.ok st := by
  cases x with
  | none => simp only [with_optarg] at h; cases h
  | some a => exact ⟨a, rfl, h⟩

theorem case_long_option_error {env : Env} {st : parse_state} {r : getopt_result}
    {o : outcome} (h : case_long_option env st r = Except.error o) :
    ∀ res, o ≠ outcome.returned res := by
  intro res hres
  subst hres
  unfold case_long_option at h
  split_ifs at h
  · rcases with_optarg_error h with h | ⟨a, _, h⟩
    · cases h
    · cases hc : env.pcre_compile a with
      | ok re => simp only [hc] at h; cases h
      | error e => simp only [hc] at h; cases h
  · cases h

theorem switch_ch_error {env : Env} {st : parse_state} {r : getopt_result} {o : outcome}
    (h : switch_ch env st r = Except.error o) : ∀ res, o ≠ outcome.returned res := by
  intro res hres
  subst hres
  unfold switch_ch at h
  cases harm : select_arm r.ch <;> simp only [harm] at h
  case case_A => rcases with_optarg_error h with h | ⟨a, _, h⟩ <;> cases h
  case case_B => rcases with_optarg_error h with h | ⟨a, _, h⟩ <;> cases h
  case case_C => rcases with_optarg_error h with h | ⟨a, _, h⟩ <;> cases h
  case case_0 => exact case_long_option_error h _ rfl
  all_goals cases h

theorem option_loop_error {env : Env} {rs : List getopt_result} {st : parse_state}
    {o : outcome} (h : option_loop env st rs = Except.error o) :
    ∀ res, o ≠ outcome.returned res := by
  induction rs generalizing st with
  | nil => simp [option_loop] at h
  | cons r rs ih =>
    simp only [option_loop] at h
    split at h
    · exact ih h
    · rename_i o2 ho
      cases h
      exact switch_ch_error ho

theorem parse_options_returned {env : Env} {argv : List String} {r : parse_result}
    (h : parse_options env argv = outcome.returned r) :
    ∃ st, option_loop env initial_state (option_reports env argv) = Except.ok st ∧
      st.help = 0 ∧ st.version = 0 ∧ r.opts = normalize env st ∧
      r.log_level_debug = st.log_level_debug ∧
      (remaining_args env argv)[0]? = some r.query ∧
      r.path = ((remaining_args env argv)[1]?).getD "." := by
  unfold parse_options at h
  split_ifs at h
  split at h
  · rename_i o ho
    subst h
    exact absurd rfl (option_loop_error ho r)
  · rename_i st hst
    refine ⟨st, hst, ?_⟩
    unfold after_loop at h
    simp only at h
    split_ifs at h with h1 h2
    have := extract_positionals_returned h
    simp only [ne_eq, not_not] at h1 h2
    exact ⟨h1, h2, this.1, this.2⟩

/-! ### The rewriting behind the loop, field by field -/

theorem normalize_context (env : Env) (st : parse_state) :
    (normalize env st).context = st.opts.context := by
  unfold normalize apply_isatty apply_ackmate apply_context apply_group
  split_ifs <;> rfl

theorem normalize_before (env : Env) (st : parse_state) :
    (normalize env st).before =
      if 0 < st.opts.context then st.opts.context else st.opts.before := by
  unfold normalize apply_isatty apply_ackmate apply_context apply_group
  split_ifs <;> rfl

theorem normalize_after (env : Env) (st : parse_state) :
    (normalize env st).after =
      if 0 < st.opts.context then st.opts.context else st.opts.after := by
  unfold normalize apply_isatty apply_ackmate apply_context apply_group
  split_ifs <;> rfl

theorem normalize_color (env : Env) (st : parse_state) :
    (normalize env st).color =
      if env.isatty = true ∧ st.opts.ackmate = 0 then st.opts.color else 0 := by
  unfold normalize apply_isatty apply_ackmate apply_context apply_group
  split_ifs <;> first | rfl | (exfalso; simp_all)

theorem normalize_print_heading (env : Env) (st : parse_state) :
    (normalize env st).print_heading = if st.group ≠ 0 then 1 else 0 := by
  unfold normalize apply_isatty apply_ackmate apply_context apply_group
  split_ifs <;> rfl

theorem normalize_print_break (env : Env) (st : parse_state) :
    (normalize env st).print_break =
      if st.opts.ackmate ≠ 0 then 1 else if st.group ≠ 0 then 1 else 0 := by
  unfold normalize apply_isatty apply_ackmate apply_context apply_group
  split_ifs <;> rfl

/-! ### One turn of the loop -/

theorem table_row_past_end {i : Nat} (h : 26 ≤ i) :
    table_row longopts i = ⟨"", arg_kind.no_argument, none, 0⟩ := by
  unfold table_row
  exact List.getD_eq_default _ _ (by simpa [longopts] using h)

theorem case_long_option_frame {env : Env} {st st2 : parse_state} {r : getopt_result}
    (h : case_long_option env st r = Except.ok st2) :
    st2.opts.ackmate = st.opts.ackmate ∧ st2.group = st.group := by
  unfold case_long_option at h
  split_ifs at h
  · obtain ⟨a, _, h⟩ := with_optarg_ok h
    cases hc : env.pcre_compile a with
    | ok re =>
      simp only [hc, Except.ok.injEq] at h
      subst h
      exact ⟨rfl, rfl⟩
    | error e => simp only [hc] at h; cases h
  · cases h
    exact ⟨rfl, rfl⟩

/-- The arms of the switch leave `opts.ackmate` and `group` alone. -/
theorem switch_ch_frame {env : Env} {st st2 : parse_state} {r : getopt_result}
    (h : switch_ch env st r = Except.ok st2) :
    st2.opts.ackmate = st.opts.ackmate ∧ st2.group = st.group := by
  unfold switch_ch at h
  cases harm : select_arm r.ch <;> simp only [harm] at h
  case case_A => obtain ⟨a, _, h⟩ := with_optarg_ok h; cases h; exact ⟨rfl, rfl⟩
  case case_B => obtain ⟨a, _, h⟩ := with_optarg_ok h; cases h; exact ⟨rfl, rfl⟩
  case case_C => obtain ⟨a, _, h⟩ := with_optarg_ok h; cases h; exact ⟨rfl, rfl⟩
  case case_0 => exact case_long_option_frame h
  case default => cases h
  all_goals cases h; exact ⟨rfl, rfl⟩

/-- What `getopt_long` itself does to `opts.ackmate`. -/
theorem getopt_effect_ackmate (st : parse_state) (r : getopt_result) :
    (getopt_effect st r).opts.ackmate =
      if reports_long "ackmate" r = true then 1 else st.opts.ackmate := by
  obtain ⟨ch, optarg, longind⟩ := r
  cases longind with
  | none => rfl
  | some i =>
    rcases Nat.lt_or_ge i 26 with hi | hi
    · interval_cases i <;> rfl
    · simp [getopt_effect, reports_long, table_row_past_end hi]

/-- What `getopt_long` itself does to `group`. -/
theorem getopt_effect_group (st : parse_state) (r : getopt_result) :
    (getopt_effect st r).group =
      if reports_long "group" r = true then 1
      else if reports_long "nogroup" r = true then 0 else st.group := by
  obtain ⟨ch, optarg, longind⟩ := r
  cases longind with
  | none => rfl
  | some i =>
    rcases Nat.lt_or_ge i 26 with hi | hi
    · interval_cases i <;> rfl
    · simp [getopt_effect, reports_long, table_row_past_end hi]

/-! ### The whole loop -/

theorem option_loop_cons {env : Env} {st st2 : parse_state} {r : getopt_result}
    {rs : List getopt_result} (h : option_loop env st (r :: rs) = Except.ok st2) :
    ∃ st1, switch_ch env (getopt_effect st r) r = Except.ok st1 ∧
      option_loop env st1 rs = Except.ok st2 := by
  simp only [option_loop] at h
  split at h
  · rename_i st1 h1
    exact ⟨st1, h1, h⟩
  · cases h

/-- After the loop `opts.ackmate` is `1` when `--ackmate` was given and is untouched
otherwise. -/
theorem option_loop_ackmate {env : Env} {rs : List getopt_result} {st st2 : parse_state}
    (h : option_loop env st rs = Except.ok st2) :
    st2.opts.ackmate = if long_given "ackmate" rs then 1 else st.opts.ackmate := by
  induction rs generalizing st with
  | nil =>
    simp only [option_loop, Except.ok.injEq] at h
    subst h
    simp [long_given]
  | cons r rs ih =>
    obtain ⟨st1, h1, h2⟩ := option_loop_cons h
    rw [ih h2, (switch_ch_frame h1).1, getopt_effect_ackmate]
    by_cases hr : reports_long "ackmate" r = true
    · simp [long_given, hr]
    · by_cases hrs : long_given "ackmate" rs
      · have : long_given "ackmate" (r :: rs) := by
          obtain ⟨x, hx, hx2⟩ := hrs
          exact ⟨x, List.mem_cons_of_mem _ hx, hx2⟩
        simp [hrs, this]
      · have : ¬ long_given "ackmate" (r :: rs) := by
          rintro ⟨x, hx, hx2⟩
          rcases List.mem_cons.1 hx with rfl | hx
          · exact hr hx2
          · exact hrs ⟨x, hx, hx2⟩
        simp [hrs, this, hr]

/-- After the loop `group` is what the last `--group` or `--nogroup` made it. -/
theorem option_loop_group {env : Env} {rs : List getopt_result} {st st2 : parse_state}
    (h : option_loop env st rs = Except.ok st2) :
    st2.group = group_after rs st.group := by
  induction rs generalizing st with
  | nil =>
    simp only [option_loop, Except.ok.injEq] at h
    subst h
    rfl
  | cons r rs ih =>
    obtain ⟨st1, h1, h2⟩ := option_loop_cons h
    rw [ih h2, (switch_ch_frame h1).2, getopt_effect_group]
    unfold group_after group_flags
    rw [List.filter_cons]
    by_cases hG : reports_long "group" r = true
    · simp only [hG, Bool.true_or, if_true, List.getLast?_cons]
      cases (List.filter (fun r => reports_long "group" r || reports_long "nogroup" r)
        rs).getLast? <;> simp [hG]
    · by_cases hN : reports_long "nogroup" r = true
      · simp only [hN, Bool.or_true, if_true, List.getLast?_cons]
        cases (List.filter (fun r => reports_long "group" r || reports_long "nogroup" r)
          rs).getLast? <;> simp [hG]
      · simp [hG, hN]

theorem reports_long_group_or_nogroup {rs : List getopt_result} {r : getopt_result}
    (h : (group_flags rs).getLast? = some r) :
    reports_long "group" r = true ∨ reports_long "nogroup" r = true := by
  have hmem := List.mem_of_getLast?_eq_some h
  unfold group_flags at hmem
  simpa using (List.mem_filter.1 hmem).2

theorem reports_long_unique {a b : String} {r : getopt_result} (ha : reports_long a r = true)
    (hb : reports_long b r = true) : a = b := by
  unfold reports_long at ha hb
  cases hl : r.longind with
  | none => simp [hl] at ha
  | some i =>
    simp only [hl, Option.map_some', beq_iff_eq, Option.some.injEq] at ha hb
    exact ha.symm.trans hb

theorem group_after_of_not_nogroup_last {rs : List getopt_result} (h : ¬ nogroup_last rs) :
    group_after rs 1 = 1 := by
  unfold group_after
  cases hl : (group_flags rs).getLast? with
  | none => rfl
  | some r =>
    rcases reports_long_group_or_nogroup hl with hG | hN
    · simp [hG]
    · exact absurd ⟨r, hl, hN⟩ h

theorem group_after_of_nogroup_last {rs : List getopt_result} (h : nogroup_last rs) (g : Int) :
    group_after rs g = 0 := by
  obtain ⟨r, hl, hN⟩ := h
  unfold group_after
  rw [hl]
  have hG : ¬ reports_long "group" r = true := by
    intro hG
    have := reports_long_unique hG hN
    simp at this
  simp [hG]

/-! ### Decimal numerals -/

theorem digitChar_facts (d : Nat) (h : d < 10) :
    (Nat.digitChar d).isDigit = true ∧ (Nat.digitChar d).toNat - 48 = d := by
  interval_cases d <;> exact ⟨rfl, rfl⟩

theorem toDigitsCore_append (fuel n : Nat) (ds : List Char) :
    Nat.toDigitsCore 10 fuel n ds = Nat.toDigitsCore 10 fuel n [] ++ ds := by
  induction fuel generalizing n ds with
  | zero => simp [Nat.toDigitsCore]
  | succ fuel ih =>
    simp only [Nat.toDigitsCore]
    split_ifs
    · simp
    · rw [ih (n / 10) (Nat.digitChar (n % 10) :: ds), ih (n / 10) [Nat.digitChar (n % 10)]]
      simp

theorem digits_value_append (l : List Char) (c : Char) :
    digits_value (l ++ [c]) = 10 * digits_value l + (c.toNat - 48) := by
  simp [digits_value, List.foldl_append]

theorem toDigitsCore_spec (fuel n : Nat) (h : n < fuel) :
    (∀ c ∈ Nat.toDigitsCore 10 fuel n [], c.isDigit = true) ∧
      Nat.toDigitsCore 10 fuel n [] ≠ [] ∧
      digits_value (Nat.toDigitsCore 10 fuel n []) = n := by
  induction fuel generalizing n with
  | zero => omega
  | succ fuel ih =>
    simp only [Nat.toDigitsCore]
    split_ifs with h0
    · have hn : n < 10 := by omega
      have hd := digitChar_facts (n % 10) (Nat.mod_lt _ (by decide))
      refine ⟨?_, by simp, ?_⟩
      · intro c hc
        simp only [List.mem_singleton] at hc
        rw [hc]
        exact hd.1
      · simp only [digits_value, List.foldl_cons, List.foldl_nil, Nat.mul_zero, Nat.zero_add]
        rw [hd.2]
        exact Nat.mod_eq_of_lt hn
    · have hlt : n / 10 < fuel := by omega
      obtain ⟨h1, h2, h3⟩ := ih (n / 10) hlt
      have hd := digitChar_facts (n % 10) (Nat.mod_lt _ (by decide))
      rw [toDigitsCore_append]
      refine ⟨?_, by simp, ?_⟩
      · intro c hc
        rcases List.mem_append.1 hc with hc | hc
        · exact h1 c hc
        · simp only [List.mem_singleton] at hc
          rw [hc]
          exact hd.1
      · rw [digits_value_append, h3, hd.2]
        omega

theorem toString_nat_toList (n : Nat) : (toString n).toList = Nat.toDigits 10 n := rfl

theorem isDigit_not_space {c : Char} (h : c.isDigit = true) :
    isspace c = false ∧ c ≠ '-' ∧ c ≠ '+' := by
  refine ⟨?_, ?_, ?_⟩
  · cases hs : isspace c with
    | false => rfl
    | true =>
      simp only [isspace, Bool.or_eq_true, decide_eq_true_eq] at hs
      rcases hs with ((((rfl | rfl) | rfl) | rfl) | rfl) | rfl <;> exact absurd h (by decide)
  · rintro rfl; exact absurd h (by decide)
  · rintro rfl; exact absurd h (by decide)

theorem read_sign_of_digit {c : Char} (t : List Char) (h : c.isDigit = true) :
    read_sign (c :: t) = (false, c :: t) := by
  have hc := isDigit_not_space h
  unfold read_sign
  split
  · rename_i r heq
    cases heq
    exact absurd rfl hc.2.1
  · rename_i r heq
    cases heq
    exact absurd rfl hc.2.2
  · rfl

theorem atoi_digits (l : List Char) (hne : l ≠ []) (hd : ∀ c ∈ l, c.isDigit = true)
    (hv : digits_value l < 2 ^ 31) : atoi (String.mk l) = digits_value l := by
  obtain ⟨c, t, rfl⟩ := List.exists_cons_of_ne_nil hne
  have hc := isDigit_not_space (hd c (List.mem_cons_self _ _))
  have htake : List.takeWhile Char.isDigit (c :: t) = c :: t :=
    List.takeWhile_eq_self_iff.2 hd
  have hdrop : List.dropWhile isspace (c :: t) = c :: t := by
    rw [List.dropWhile_cons_of_neg (by simp [hc.1])]
  unfold atoi
  simp only [String.toList, hdrop, read_sign_of_digit t (hd c (List.mem_cons_self _ _)), htake,
    Bool.false_eq_true, if_false]
  unfold clamp_long to_int
  have h2 : ((digits_value (c :: t) : Nat) : Int) < 2 ^ 31 := by exact_mod_cast hv
  split_ifs <;> omega

theorem atoi_toString (n : Nat) (h : n < 2 ^ 31) : atoi (toString n) = n := by
  obtain ⟨h1, h2, h3⟩ := toDigitsCore_spec (n + 1) n (Nat.lt_succ_self n)
  have := atoi_digits (Nat.toDigits 10 n) h2 h1 (by rw [Nat.toDigits, h3]; exact h)
  rw [Nat.toDigits, h3] at this
  exact this

/-! ### `getopt_long` on the shapes of argument vector used below -/

theorem getopt_long_plain (posix : Bool) (a : String) (rest skipped : List String)
    (h : plain_token a) :
    getopt_long posix false (a :: rest) skipped =
      if posix then ([], skipped ++ a :: rest)
      else getopt_long posix false rest (skipped ++ [a]) := by
  unfold plain_token at h
  rw [getopt_long]
  split
  · rename_i heq
    rw [heq] at h
    exact absurd rfl h
  · rename_i body heq
    rw [heq] at h
    exact absurd rfl h
  · rename_i c cs heq
    rw [heq] at h
    exact absurd rfl h
  · rfl

theorem getopt_long_short_C (posix : Bool) (a : String) (rest skipped : List String) :
    getopt_long posix false ("-C" :: a :: rest) skipped =
      (⟨67, some a, none⟩ :: (getopt_long posix false rest skipped).1,
        (getopt_long posix false rest skipped).2) := by
  rfl

theorem getopt_long_short_C_two (posix : Bool) (a p q : String)
    (hp : plain_token p) (hq : plain_token q) :
    getopt_long posix false ["-C", a, p, q] [] = ([⟨67, some a, none⟩], [p, q]) := by
  rw [getopt_long_short_C, getopt_long_plain posix p [q] [] hp]
  cases posix
  · simp only [Bool.false_eq_true, if_false, List.nil_append]
    rw [getopt_long_plain false q [] [p] hq]
    simp [getopt_long]
  · simp

theorem atoi_non_numeric {a : String} (h : non_numeric a) : atoi a = 0 := by
  unfold non_numeric at h
  unfold atoi
  have htake : List.takeWhile Char.isDigit (read_sign (a.toList.dropWhile isspace)).2 = [] := by
    cases hl : (read_sign (a.toList.dropWhile isspace)).2 with
    | nil => rfl
    | cons c t =>
      rw [hl] at h
      simp only [List.head?_cons, Option.map_some', ne_eq, Option.some.injEq] at h
      simp [List.takeWhile, h]
  simp only [htake]
  split_ifs <;> decide

/-- One flag without argument in front of the pattern. -/
theorem getopt_long_flag_then_pattern (posix : Bool) (f p : String) (r : getopt_result)
    (hf : ∀ rest skipped, getopt_long posix false (f :: rest) skipped =
      (r :: (getopt_long posix false rest skipped).1, (getopt_long posix false rest skipped).2))
    (hp : plain_token p) :
    getopt_long posix false [f, p] [] = ([r], [p]) := by
  rw [hf, getopt_long_plain posix p [] [] hp]
  cases posix <;> simp [getopt_long]

/-- One flag with its argument in the next element, in front of the pattern. -/
theorem getopt_long_flag_arg_then_pattern (posix : Bool) (f a p : String) (r : getopt_result)
    (hf : ∀ rest skipped, getopt_long posix false (f :: a :: rest) skipped =
      (r :: (getopt_long posix false rest skipped).1, (getopt_long posix false rest skipped).2))
    (hp : plain_token p) :
    getopt_long posix false [f, a, p] [] = ([r], [p]) := by
  rw [hf, getopt_long_plain posix p [] [] hp]
  cases posix <;> simp [getopt_long]

theorem getopt_long_short_i (posix : Bool) (rest skipped : List String) :
    getopt_long posix false ("-i" :: rest) skipped =
      (⟨105, none, none⟩ :: (getopt_long posix false rest skipped).1,
        (getopt_long posix false rest skipped).2) := by
  cases rest <;> rfl

theorem getopt_long_ignore_case (posix : Bool) (rest skipped : List String) :
    getopt_long posix false ("--ignore-case" :: rest) skipped =
      (⟨105, none, some 19⟩ :: (getopt_long posix false rest skipped).1,
        (getopt_long posix false rest skipped).2) := by
  cases rest <;> rfl

theorem getopt_long_short_A (posix : Bool) (a : String) (rest skipped : List String) :
    getopt_long posix false ("-A" :: a :: rest) skipped =
      (⟨65, some a, none⟩ :: (getopt_long posix false rest skipped).1,
        (getopt_long posix false rest skipped).2) := by
  rfl

theorem getopt_long_after (posix : Bool) (a : String) (rest skipped : List String) :
    getopt_long posix false ("--after" :: a :: rest) skipped =
      (⟨65, some a, some 2⟩ :: (getopt_long posix false rest skipped).1,
        (getopt_long posix false rest skipped).2) := by
  rfl

theorem getopt_long_short_B (posix : Bool) (a : String) (rest skipped : List String) :
    getopt_long posix false ("-B" :: a :: rest) skipped =
      (⟨66, some a, none⟩ :: (getopt_long posix false rest skipped).1,
        (getopt_long posix false rest skipped).2) := by
  rfl

theorem getopt_long_before (posix : Bool) (a : String) (rest skipped : List String) :
    getopt_long posix false ("--before" :: a :: rest) skipped =
      (⟨66, some a, some 3⟩ :: (getopt_long posix false rest skipped).1,
        (getopt_long posix false rest skipped).2) := by
  rfl

/-! ### Single turns of the loop on given reports -/

theorem loop_turn_i (env : Env) (st : parse_state) (li : Option Nat)
    (hli : li = none ∨ li = some 19) :
    switch_ch env (getopt_effect st ⟨105, none, li⟩) ⟨105, none, li⟩ =
      Except.ok
        { st with
          opts := { st.opts with casing := case_behavior.CASE_INSENSITIVE },
          opt_index := li.getD st.opt_index } := by
  rcases hli with rfl | rfl <;> rfl

theorem loop_turn_A (env : Env) (st : parse_state) (a : String) (li : Option Nat)
    (hli : li = none ∨ li = some 2) :
    switch_ch env (getopt_effect st ⟨65, some a, li⟩) ⟨65, some a, li⟩ =
      Except.ok
        { st with
          opts := { st.opts with after := atoi a }, opt_index := li.getD st.opt_index } := by
  rcases hli with rfl | rfl <;> rfl

theorem loop_turn_B (env : Env) (st : parse_state) (a : String) (li : Option Nat)
    (hli : li = none ∨ li = some 3) :
    switch_ch env (getopt_effect st ⟨66, some a, li⟩) ⟨66, some a, li⟩ =
      Except.ok
        { st with
          opts := { st.opts with before := atoi a }, opt_index := li.getD st.opt_index } := by
  rcases hli with rfl | rfl <;> rfl

/-- A run whose only report is `r`, with the pattern as only positional token. -/
theorem parse_options_one_report (env : Env) (argv : List String) (r : getopt_result)
    (p : String) (st : parse_state) (hlen : ¬ argv.length < 2)
    (hscan : getopt_long env.posixly_correct false argv.tail [] = ([r], [p]))
    (hturn : switch_ch env (getopt_effect initial_state r) r = Except.ok st)
    (hhelp : st.help = 0) (hver : st.version = 0) :
    parse_options env argv =
      outcome.returned ⟨normalize env st, p, ".", st.log_level_debug⟩ := by
  unfold parse_options
  rw [if_neg hlen]
  simp only [option_reports, remaining_args, hscan, option_loop, hturn, after_loop, hhelp,
    hver, ne_eq, not_true_eq_false, if_false, extract_positionals, normalize]

/-! ### The arms of the switch, one by one -/

theorem case_long_option_ok {env : Env} {st st2 : parse_state} {r : getopt_result}
    (h : case_long_option env st r = Except.ok st2) :
    ((table_row longopts st.opt_index).name = "ackmate-dir-filter" ∧
        ∃ a re, r.optarg = some a ∧ env.pcre_compile a = Except.ok re ∧
          st2 = set_opts st (fun o => { o with ackmate_dir_filter := some re })) ∨
      ((table_row longopts st.opt_index).name ≠ "ackmate-dir-filter" ∧ st2 = st) := by
  unfold case_long_option at h
  split_ifs at h with hname hflag
  · obtain ⟨a, ha, h⟩ := with_optarg_ok h
    cases hc : env.pcre_compile a with
    | ok re =>
      simp only [hc, Except.ok.injEq] at h
      exact Or.inl ⟨hname, a, re, ha, hc, h.symm⟩
    | error e => simp only [hc] at h; cases h
  · cases h
    exact Or.inr ⟨hname, rfl⟩

/-- What a turn of the switch that goes on leaves behind, arm by arm. -/
theorem switch_ch_ok {env : Env} {st st2 : parse_state} {r : getopt_result}
    (h : switch_ch env st r = Except.ok st2) :
    (select_arm r.ch = switch_arm.case_A ∧
        ∃ a, r.optarg = some a ∧ st2 = set_opts st (fun o => { o with after := atoi a })) ∨
      (select_arm r.ch = switch_arm.case_B ∧
        ∃ a, r.optarg = some a ∧ st2 = set_opts st (fun o => { o with before := atoi a })) ∨
      (select_arm r.ch = switch_arm.case_C ∧
        ∃ a, r.optarg = some a ∧ st2 = set_opts st (fun o => { o with context := atoi a })) ∨
      (select_arm r.ch = switch_arm.case_0 ∧ case_long_option env st r = Except.ok st2) ∨
      (st2.opts.after = st.opts.after ∧ st2.opts.before = st.opts.before ∧
        st2.opts.context = st.opts.context ∧ st2.opts.color = st.opts.color ∧
        st2.opts.ackmate_dir_filter = st.opts.ackmate_dir_filter ∧
        (st2.help = st.help ∨ st2.help = 1) ∧ (st2.version = st.version ∨ st2.version = 1) ∧
        select_arm r.ch ≠ switch_arm.case_0) := by
  unfold switch_ch at h
  cases harm : select_arm r.ch <;> simp only [harm] at h
  case case_A =>
    obtain ⟨a, ha, h⟩ := with_optarg_ok h
    cases h
    exact Or.inl ⟨rfl, a, ha, rfl⟩
  case case_B =>
    obtain ⟨a, ha, h⟩ := with_optarg_ok h
    cases h
    exact Or.inr (Or.inl ⟨rfl, a, ha, rfl⟩)
  case case_C =>
    obtain ⟨a, ha, h⟩ := with_optarg_ok h
    cases h
    exact Or.inr (Or.inr (Or.inl ⟨rfl, a, ha, rfl⟩))
  case case_0 => exact Or.inr (Or.inr (Or.inr (Or.inl ⟨rfl, h⟩)))
  case default => cases h
  all_goals
    cases h
    exact Or.inr (Or.inr (Or.inr (Or.inr
      ⟨rfl, rfl, rfl, rfl, rfl, by first | exact Or.inl rfl | exact Or.inr rfl,
        by first | exact Or.inl rfl | exact Or.inr rfl, by decide⟩)))

/-- No arm of the switch lowers `help` or `version`. -/
theorem switch_ch_help_version {env : Env} {st st2 : parse_state} {r : getopt_result}
    (h : switch_ch env st r = Except.ok st2) :
    (st2.help = st.help ∨ st2.help = 1) ∧ (st2.version = st.version ∨ st2.version = 1) := by
  rcases switch_ch_ok h with ⟨_, a, _, rfl⟩ | ⟨_, a, _, rfl⟩ | ⟨_, a, _, rfl⟩ | ⟨_, h0⟩ | h5
  · exact ⟨Or.inl rfl, Or.inl rfl⟩
  · exact ⟨Or.inl rfl, Or.inl rfl⟩
  · exact ⟨Or.inl rfl, Or.inl rfl⟩
  · rcases case_long_option_ok h0 with ⟨_, a, re, _, _, rfl⟩ | ⟨_, rfl⟩
    · exact ⟨Or.inl rfl, Or.inl rfl⟩
    · exact ⟨Or.inl rfl, Or.inl rfl⟩
  · exact ⟨h5.2.2.2.2.2.1, h5.2.2.2.2.2.2.1⟩

/-- No arm of the switch writes `opts.color`. -/
theorem switch_ch_color {env : Env} {st st2 : parse_state} {r : getopt_result}
    (h : switch_ch env st r = Except.ok st2) : st2.opts.color = st.opts.color := by
  rcases switch_ch_ok h with ⟨_, a, _, rfl⟩ | ⟨_, a, _, rfl⟩ | ⟨_, a, _, rfl⟩ | ⟨_, h0⟩ | h5
  · rfl
  · rfl
  · rfl
  · rcases case_long_option_ok h0 with ⟨_, a, re, _, _, rfl⟩ | ⟨_, rfl⟩ <;> rfl
  · exact h5.2.2.2.1

/-- What `getopt_long` itself does to `help`. -/
theorem getopt_effect_help (st : parse_state) (r : getopt_result) :
    (getopt_effect st r).help = if reports_long "help" r = true then 1 else st.help := by
  obtain ⟨ch, optarg, longind⟩ := r
  cases longind with
  | none => rfl
  | some i =>
    rcases Nat.lt_or_ge i 26 with hi | hi
    · interval_cases i <;> rfl
    · simp [getopt_effect, reports_long, table_row_past_end hi]

/-- What `getopt_long` itself does to `opts.color`. -/
theorem getopt_effect_color (st : parse_state) (r : getopt_result) :
    (getopt_effect st r).opts.color =
      if reports_long "color" r = true then 1
      else if reports_long "nocolor" r = true then 0 else st.opts.color := by
  obtain ⟨ch, optarg, longind⟩ := r
  cases longind with
  | none => rfl
  | some i =>
    rcases Nat.lt_or_ge i 26 with hi | hi
    · interval_cases i <;> rfl
    · simp [getopt_effect, reports_long, table_row_past_end hi]

/-- The stores of `getopt_long` itself reach neither `before`, `after` nor the filter. -/
theorem getopt_effect_untouched (st : parse_state) (r : getopt_result) :
    (getopt_effect st r).opts.before = st.opts.before ∧
      (getopt_effect st r).opts.after = st.opts.after ∧
      (getopt_effect st r).opts.ackmate_dir_filter = st.opts.ackmate_dir_filter := by
  obtain ⟨ch, optarg, longind⟩ := r
  cases longind with
  | none => exact ⟨rfl, rfl, rfl⟩
  | some i =>
    rcases Nat.lt_or_ge i 26 with hi | hi
    · interval_cases i <;> exact ⟨rfl, rfl, rfl⟩
    · simp [getopt_effect, table_row_past_end hi]

/-! ### More on the whole loop -/

theorem option_loop_append (env : Env) (st : parse_state) (pre rs : List getopt_result) :
    option_loop env st (pre ++ rs) =
      match option_loop env st pre with
      | Except.ok st1 => option_loop env st1 rs
      | Except.error o => Except.error o := by
  induction pre generalizing st with
  | nil => rfl
  | cons r pre ih =>
    simp only [List.cons_append, option_loop]
    cases switch_ch env (getopt_effect st r) r with
    | ok st1 => exact ih st1
    | error o => rfl

/-- Once `help` is `1`, or once `--help` is reported, `help` is `1` at the end of the loop. -/
theorem option_loop_help {env : Env} {rs : List getopt_result} {st st2 : parse_state}
    (h : option_loop env st rs = Except.ok st2)
    (hgiven : st.help = 1 ∨ long_given "help" rs) : st2.help = 1 := by
  induction rs generalizing st with
  | nil =>
    simp only [option_loop, Except.ok.injEq] at h
    subst h
    rcases hgiven with h1 | ⟨r, hr, _⟩
    · exact h1
    · cases hr
  | cons r rs ih =>
    obtain ⟨st1, h1, h2⟩ := option_loop_cons h
    apply ih h2
    have hstep := (switch_ch_help_version h1).1
    rw [getopt_effect_help] at hstep
    by_cases hr : reports_long "help" r = true
    · left
      rw [if_pos hr] at hstep
      rcases hstep with h | h <;> exact h
    · rw [if_neg hr] at hstep
      rcases hgiven with hst | ⟨x, hx, hx2⟩
      · left
        rcases hstep with h | h
        · rw [h, hst]
        · exact h
      · rcases List.mem_cons.1 hx with rfl | hx
        · exact absurd hx2 hr
        · exact Or.inr ⟨x, hx, hx2⟩

/-- After the loop `opts.color` is what the last `--color` or `--nocolor` made it. -/
theorem option_loop_color {env : Env} {rs : List getopt_result} {st st2 : parse_state}
    (h : option_loop env st rs = Except.ok st2) :
    st2.opts.color = color_after rs st.opts.color := by
  induction rs generalizing st with
  | nil =>
    simp only [option_loop, Except.ok.injEq] at h
    subst h
    rfl
  | cons r rs ih =>
    obtain ⟨st1, h1, h2⟩ := option_loop_cons h
    rw [ih h2, switch_ch_color h1, getopt_effect_color]
    unfold color_after color_flags
    rw [List.filter_cons]
    by_cases hC : reports_long "color" r = true
    · simp only [hC, Bool.true_or, if_true, List.getLast?_cons]
      cases (List.filter (fun r => reports_long "color" r || reports_long "nocolor" r)
        rs).getLast? <;> simp [hC]
    · by_cases hN : reports_long "nocolor" r = true
      · simp only [hN, Bool.or_true, if_true, List.getLast?_cons]
        cases (List.filter (fun r => reports_long "color" r || reports_long "nocolor" r)
          rs).getLast? <;> simp [hC]
      · simp [hC, hN]

theorem color_after_ne_zero_iff (rs : List getopt_result) :
    color_after rs 1 ≠ 0 ↔ color_left_on rs := by
  unfold color_after color_left_on
  cases hl : (color_flags rs).getLast? with
  | none =>
    have : color_flags rs = [] := List.getLast?_eq_none_iff.1 hl
    simp [this]
  | some r =>
    have hne : color_flags rs ≠ [] := by
      intro h
      rw [h] at hl
      cases hl
    by_cases hC : reports_long "color" r = true
    · simp [hC, hne]
    · simp [hC, hne]

/-- The loop keeps `before` and `after` from going below zero as long as the values
given to `-A` and `-B` do not. -/
theorem option_loop_line_counts {env : Env} {rs : List getopt_result} {st st2 : parse_state}
    (h : option_loop env st rs = Except.ok st2) (hrs : line_counts_not_negative rs)
    (hst : 0 ≤ st.opts.before ∧ 0 ≤ st.opts.after) :
    0 ≤ st2.opts.before ∧ 0 ≤ st2.opts.after := by
  induction rs generalizing st with
  | nil =>
    simp only [option_loop, Except.ok.injEq] at h
    subst h
    exact hst
  | cons r rs ih =>
    obtain ⟨st1, h1, h2⟩ := option_loop_cons h
    apply ih h2 (fun x hx => hrs x (List.mem_cons_of_mem _ hx))
    have hr := hrs r (List.mem_cons_self _ _)
    obtain ⟨hb, ha, _⟩ := getopt_effect_untouched st r
    rcases switch_ch_ok h1 with ⟨harm, a, hopt, rfl⟩ | ⟨harm, a, hopt, rfl⟩ |
      ⟨_, a, _, rfl⟩ | ⟨_, h0⟩ | h5
    · have := hr (Or.inl harm)
      simp only [count_not_negative, hopt, decide_eq_true_eq] at this
      exact ⟨by simpa [set_opts, hb] using hst.1, by simpa [set_opts] using this⟩
    · have := hr (Or.inr harm)
      simp only [count_not_negative, hopt, decide_eq_true_eq] at this
      exact ⟨by simpa [set_opts] using this, by simpa [set_opts, ha] using hst.2⟩
    · exact ⟨by simpa [set_opts, hb] using hst.1, by simpa [set_opts, ha] using hst.2⟩
    · rcases case_long_option_ok h0 with ⟨_, a, re, _, _, rfl⟩ | ⟨_, rfl⟩
      · exact ⟨by simpa [set_opts, hb] using hst.1, by simpa [set_opts, ha] using hst.2⟩
      · exact ⟨by rw [hb]; exact hst.1, by rw [ha]; exact hst.2⟩
    · exact ⟨by rw [h5.2.1, hb]; exact hst.1, by rw [h5.1, ha]; exact hst.2⟩

/-! ### From the loop to the end of the run -/

theorem option_reports_of_short (env : Env) (argv : List String) (h : argv.length < 2) :
    option_reports env argv = [] := by
  match argv, h with
  | [], _ => rfl
  | [_], _ => rfl

theorem parse_options_of_loop {env : Env} {argv : List String} {st : parse_state}
    (hlen : ¬ argv.length < 2)
    (hloop : option_loop env initial_state (option_reports env argv) = Except.ok st) :
    parse_options env argv = after_loop env st (remaining_args env argv) := by
  unfold parse_options
  rw [if_neg hlen]
  simp only [hloop]

theorem parse_options_of_loop_error {env : Env} {argv : List String} {o : outcome}
    (hlen : ¬ argv.length < 2)
    (hloop : option_loop env initial_state (option_reports env argv) = Except.error o) :
    parse_options env argv = o := by
  unfold parse_options
  rw [if_neg hlen]
  simp only [hloop]

/-! ### What `getopt_long` can report -/

theorem exact_match_bounds {name : List Char} {table : List option} {k i : Nat}
    (h : exact_match name table k = some i) : i < k + table.length := by
  induction table generalizing k with
  | nil => simp [exact_match] at h
  | cons o rest ih =>
    simp only [exact_match] at h
    split_ifs at h
    · simp only [Option.some.injEq] at h
      simp only [List.length_cons]
      omega
    · have := ih h
      simp only [List.length_cons]
      omega

theorem abbreviations_bounds {name : List Char} {table : List option} {k i : Nat}
    (h : i ∈ abbreviations name table k) : i < k + table.length := by
  induction table generalizing k with
  | nil => simp [abbreviations] at h
  | cons o rest ih =>
    simp only [abbreviations] at h
    simp only [List.length_cons]
    split_ifs at h
    · rcases List.mem_cons.1 h with rfl | h
      · omega
      · have := ih h
        omega
    · have := ih h
      omega

theorem long_lookup_bounds {table : List option} {name : List Char} {i : Nat}
    (h : long_lookup table name = some i) : i < table.length := by
  unfold long_lookup at h
  split at h
  · rename_i j hj
    simp only [Option.some.injEq] at h
    subst h
    simpa using exact_match_bounds hj
  · split at h
    · cases h
    · rename_i j others hj
      split_ifs at h
      simp only [Option.some.injEq] at h
      subst h
      have : j ∈ abbreviations name table 0 := by rw [hj]; exact List.mem_cons_self _ _
      simpa using abbreviations_bounds this

theorem report_wf_getopt_error : report_wf getopt_error := by
  unfold report_wf getopt_error
  decide

theorem scan_long_wf (next : Option String) (body : List Char) :
    report_wf (scan_long next body).1 := by
  unfold scan_long
  split
  · exact report_wf_getopt_error
  · rename_i i hi
    have hlt := long_lookup_bounds hi
    split
    · split_ifs with hno
      · exact report_wf_getopt_error
      · exact ⟨hlt, rfl, fun _ => by simp⟩
    · split_ifs with hreq
      · split
        · exact ⟨hlt, rfl, fun _ => by simp⟩
        · exact report_wf_getopt_error
      · exact ⟨hlt, rfl, fun h => absurd h hreq⟩

theorem short_lookup_of_code (c : Char) :
    (c.toNat = 0 → short_lookup optstring.toList c = none) ∧
      (c.toNat = 65 ∨ c.toNat = 66 ∨ c.toNat = 67 →
        short_lookup optstring.toList c = some true) := by
  have hc : Char.ofNat c.toNat = c := Char.ofNat_toNat c
  constructor
  · intro h
    rw [h] at hc
    subst hc
    decide
  · rintro (h | h | h) <;>
    · rw [h] at hc
      subst hc
      decide

theorem short_report_wf (c : Char) (oa : Option String)
    (hlook : short_lookup optstring.toList c ≠ none)
    (harg : short_lookup optstring.toList c = some true → oa ≠ none) :
    report_wf ⟨c.toNat, oa, none⟩ := by
  obtain ⟨h0, h65⟩ := short_lookup_of_code c
  refine ⟨?_, ?_⟩
  · intro hch
    have hch2 : (c.toNat : Int) = 0 := hch
    have : c.toNat = 0 := by exact_mod_cast hch2
    exact hlook (h0 this)
  · intro hch
    have hch2 : (c.toNat : Int) = 65 ∨ (c.toNat : Int) = 66 ∨ (c.toNat : Int) = 67 := hch
    apply harg
    apply h65
    rcases hch2 with h | h | h
    · exact Or.inl (by exact_mod_cast h)
    · exact Or.inr (Or.inl (by exact_mod_cast h))
    · exact Or.inr (Or.inr (by exact_mod_cast h))

theorem scan_short_cons (next : Option String) (c : Char) (rest : List Char) :
    scan_short next (c :: rest) =
      match short_lookup optstring.toList c with
      | none => (getopt_error :: (scan_short next rest).1, (scan_short next rest).2)
      | some false =>
        (⟨c.toNat, none, none⟩ :: (scan_short next rest).1, (scan_short next rest).2)
      | some true =>
        match rest with
        | _ :: _ => ([⟨c.toNat, some (String.mk rest), none⟩], false)
        | [] =>
          match next with
          | some a => ([⟨c.toNat, some a, none⟩], true)
          | none => ([getopt_error], false) := by
  rfl

theorem scan_short_wf (next : Option String) (cs : List Char) :
    ∀ r ∈ (scan_short next cs).1, report_wf r := by
  induction cs with
  | nil =>
    intro r hr
    cases hr
  | cons c rest ih =>
    intro r hr
    rw [scan_short_cons] at hr
    split at hr
    · rcases List.mem_cons.1 hr with rfl | hr
      · exact report_wf_getopt_error
      · exact ih r hr
    · rename_i hlook
      rcases List.mem_cons.1 hr with rfl | hr
      · exact short_report_wf c none (by rw [hlook]; simp) (by rw [hlook]; simp)
      · exact ih r hr
    · rename_i hlook
      split at hr
      · simp only [List.mem_singleton] at hr
        subst hr
        exact short_report_wf c _ (by rw [hlook]; simp) (by simp)
      · split at hr
        · simp only [List.mem_singleton] at hr
          subst hr
          exact short_report_wf c _ (by rw [hlook]; simp) (by simp)
        · simp only [List.mem_singleton] at hr
          subst hr
          exact report_wf_getopt_error

theorem getopt_long_wf (posix taken : Bool) (args skipped : List String) :
    ∀ r ∈ (getopt_long posix taken args skipped).1, report_wf r := by
  induction args generalizing taken skipped with
  | nil =>
    intro r hr
    simp [getopt_long] at hr
  | cons a rest ih =>
    intro r hr
    cases taken with
    | true =>
      rw [getopt_long] at hr
      exact ih _ _ r hr
    | false =>
      rw [getopt_long] at hr
      split at hr
      · simp at hr
      · rcases List.mem_cons.1 hr with rfl | hr
        · exact scan_long_wf _ _
        · exact ih _ _ r hr
      · rcases List.mem_append.1 hr with hr | hr
        · exact scan_short_wf _ _ r hr
        · exact ih _ _ r hr
      · split_ifs at hr
        · simp at hr
        · exact ih _ _ r hr

theorem option_reports_wf (env : Env) (argv : List String) :
    ∀ r ∈ option_reports env argv, report_wf r :=
  getopt_long_wf _ _ _ _

/-! ### Turns of the loop on the reports of `getopt_long` -/

theorem select_arm_case_0 {ch : Int} (h : select_arm ch = switch_arm.case_0) : ch = 0 := by
  unfold select_arm at h
  split_ifs at h
  assumption

theorem select_arm_case_ABC {ch : Int}
    (h : select_arm ch = switch_arm.case_A ∨ select_arm ch = switch_arm.case_B ∨
      select_arm ch = switch_arm.case_C) : ch = 65 ∨ ch = 66 ∨ ch = 67 := by
  unfold select_arm at h
  split_ifs at h with h1 h2 h3
  · exact Or.inl h1
  · exact Or.inr (Or.inl h2)
  · exact Or.inr (Or.inr h3)
  all_goals simp at h

/-- The rows of the table, read as the dispatcher reads them. -/
theorem long_row_facts (i : Nat) (hi : i < 26) :
    (long_return (table_row longopts i) = 0 →
        ((table_row longopts i).name = "ackmate-dir-filter" ∧ i = 1 ∧
          (table_row longopts i).has_arg = arg_kind.required_argument) ∨
        ((table_row longopts i).name ≠ "ackmate-dir-filter" ∧
          (table_row longopts i).flag ≠ none)) ∧
      (long_return (table_row longopts i) = 65 ∨ long_return (table_row longopts i) = 66 ∨
          long_return (table_row longopts i) = 67 →
        (table_row longopts i).has_arg = arg_kind.required_argument) ∧
      ((table_row longopts i).name = "ackmate-dir-filter" →
        long_return (table_row longopts i) = 0) := by
  interval_cases i <;> decide

theorem getopt_effect_opt_index (st : parse_state) (r : getopt_result) (i : Nat)
    (h : r.longind = some i) : (getopt_effect st r).opt_index = i := by
  unfold getopt_effect
  rw [h]
  simp only
  cases (table_row longopts i).flag with
  | none => rfl
  | some t => cases t <;> rfl

/-- A report that is switched to `case 0` comes from a row of the table: the row of
`--ackmate-dir-filter`, with its argument, or a row with a flag pointer. -/
theorem report_wf_case_0 {r : getopt_result} (hwf : report_wf r)
    (harm : select_arm r.ch = switch_arm.case_0) :
    ∃ i, r.longind = some i ∧
      (((table_row longopts i).name = "ackmate-dir-filter" ∧ r.optarg ≠ none) ∨
        ((table_row longopts i).name ≠ "ackmate-dir-filter" ∧
          (table_row longopts i).flag ≠ none)) := by
  have hch := select_arm_case_0 harm
  unfold report_wf at hwf
  cases hl : r.longind with
  | none =>
    rw [hl] at hwf
    exact absurd hch hwf.1
  | some i =>
    rw [hl] at hwf
    obtain ⟨hi, hret, harg⟩ := hwf
    refine ⟨i, rfl, ?_⟩
    rcases (long_row_facts i hi).1 (by rw [← hret]; exact hch) with ⟨hn, _, hreq⟩ | h2
    · exact Or.inl ⟨hn, harg hreq⟩
    · exact Or.inr h2

/-- A report that is switched to the arm of `A`, `B` or `C` carries an argument. -/
theorem report_wf_case_ABC {r : getopt_result} (hwf : report_wf r)
    (harm : select_arm r.ch = switch_arm.case_A ∨ select_arm r.ch = switch_arm.case_B ∨
      select_arm r.ch = switch_arm.case_C) : r.optarg ≠ none := by
  have hch := select_arm_case_ABC harm
  unfold report_wf at hwf
  cases hl : r.longind with
  | none =>
    rw [hl] at hwf
    exact hwf.2 hch
  | some i =>
    rw [hl] at hwf
    obtain ⟨hi, hret, harg⟩ := hwf
    exact harg ((long_row_facts i hi).2.1 (by rw [← hret]; exact hch))

/-- The report of `--ackmate-dir-filter` is switched to `case 0`. -/
theorem report_wf_filter {r : getopt_result} (hwf : report_wf r)
    (hrep : reports_long "ackmate-dir-filter" r = true) :
    r.longind = some 1 ∧ r.ch = 0 := by
  unfold reports_long at hrep
  unfold report_wf at hwf
  cases hl : r.longind with
  | none => simp [hl] at hrep
  | some i =>
    rw [hl] at hwf
    simp only [hl, Option.map_some', beq_iff_eq, Option.some.injEq] at hrep
    obtain ⟨hi, hret, _⟩ := hwf
    have h0 := (long_row_facts i hi).2.2 hrep
    rcases (long_row_facts i hi).1 h0 with ⟨_, h1, _⟩ | ⟨hne, _⟩
    · exact ⟨by rw [h1], by rw [hret, h0]⟩
    · exact absurd hrep hne

theorem with_optarg_error_cases {x : Option String} {k : String → Except outcome parse_state}
    {o : outcome} (h : with_optarg x k = Except.error o) :
    x = none ∨ ∃ a, x = some a ∧ k a = Except.error o := by
  cases x with
  | none => exact Or.inl rfl
  | some a => exact Or.inr ⟨a, rfl, h⟩

/-- On a report of `getopt_long` a turn of the loop ends the run in two ways only:
usage and status `1`, or the message about the filter pattern and status `1`. -/
theorem loop_turn_error {env : Env} {st : parse_state} {r : getopt_result} {o : outcome}
    (hwf : report_wf r) (h : switch_ch env (getopt_effect st r) r = Except.error o) :
    o = outcome.exited 1 [output.usage] ∨
      ∃ e : String × Int, o = outcome.exited 1 [output.log_err (pcre_message e.2 e.1)] := by
  unfold switch_ch at h
  cases harm : select_arm r.ch <;> simp only [harm] at h
  case case_A =>
    rcases with_optarg_error_cases h with hn | ⟨a, _, h⟩
    · exact absurd hn (report_wf_case_ABC hwf (Or.inl harm))
    · cases h
  case case_B =>
    rcases with_optarg_error_cases h with hn | ⟨a, _, h⟩
    · exact absurd hn (report_wf_case_ABC hwf (Or.inr (Or.inl harm)))
    · cases h
  case case_C =>
    rcases with_optarg_error_cases h with hn | ⟨a, _, h⟩
    · exact absurd hn (report_wf_case_ABC hwf (Or.inr (Or.inr harm)))
    · cases h
  case case_0 =>
    obtain ⟨i, hl, hrow⟩ := report_wf_case_0 hwf harm
    have hidx := getopt_effect_opt_index st r i hl
    unfold case_long_option at h
    rw [hidx] at h
    split_ifs at h with hname hflag
    · rcases with_optarg_error_cases h with hn | ⟨a, _, h⟩
      · rcases hrow with ⟨_, hsome⟩ | ⟨hne, _⟩
        · exact absurd hn hsome
        · exact absurd hname hne
      · cases hc : env.pcre_compile a with
        | ok re => simp only [hc] at h; cases h
        | error e =>
          simp only [hc, Except.error.injEq] at h
          exact Or.inr ⟨e, h.symm⟩
    · rcases hrow with ⟨hn, _⟩ | ⟨_, hf⟩
      · exact absurd hn hname
      · exact absurd hf hflag
  case default =>
    simp only [Except.error.injEq] at h
    exact Or.inl h.symm
  all_goals cases h

theorem option_loop_error_cases {env : Env} {rs : List getopt_result} {st : parse_state}
    {o : outcome} (hwf : ∀ r ∈ rs, report_wf r) (h : option_loop env st rs = Except.error o) :
    o = outcome.exited 1 [output.usage] ∨
      ∃ e : String × Int, o = outcome.exited 1 [output.log_err (pcre_message e.2 e.1)] := by
  induction rs generalizing st with
  | nil => simp [option_loop] at h
  | cons r rs ih =>
    simp only [option_loop] at h
    split at h
    · exact ih (fun x hx => hwf x (List.mem_cons_of_mem _ hx)) h
    · rename_i o2 ho
      cases h
      exact loop_turn_error (hwf r (List.mem_cons_self _ _)) ho

/-! ### What a run can write before it ends -/

theorem extract_positionals_not_exited (env : Env) (st : parse_state) (o : cli_options)
    (args : List String) (status : Int) (out : List output) :
    extract_positionals env st o args ≠ outcome.exited status out := by
  intro h
  match args, h with
  | [], h => cases h
  | [_], h => cases h
  | _ :: p :: _, h =>
    simp only [extract_positionals] at h
    split_ifs at h

/-- The outputs of a run that ends through `exit`. -/
theorem parse_options_exited {env : Env} {argv : List String} {status : Int}
    {out : List output} (h : parse_options env argv = outcome.exited status out) :
    out = [output.usage] ∨ out = [output.version] ∨
      ∃ e : String × Int, out = [output.log_err (pcre_message e.2 e.1)] := by
  unfold parse_options at h
  split_ifs at h
  · cases h
    exact Or.inl rfl
  · split at h
    · rename_i o ho
      subst h
      rcases option_loop_error_cases (option_reports_wf env argv) ho with h1 | ⟨e, h1⟩
      · cases h1
        exact Or.inl rfl
      · cases h1
        exact Or.inr (Or.inr ⟨e, rfl⟩)
    · rename_i st hst
      unfold after_loop at h
      simp only at h
      split_ifs at h
      · cases h
        exact Or.inl rfl
      · cases h
        exact Or.inr (Or.inl rfl)
      · exact absurd h (extract_positionals_not_exited _ _ _ _ _ _)

theorem pcre_message_ne_no_value_message (offset : Int) (err name : String) :
    pcre_message offset err ≠ no_value_message name := by
  intro h
  have h1 : (pcre_message offset err).data.head? = some 'p' := rfl
  have h2 : (no_value_message name).data.head? = some 'o' := rfl
  rw [h, h2] at h1
  exact absurd h1 (by decide)

/-! ### The directory filter through the loop -/

/-- The turn of the loop on the report of `--ackmate-dir-filter PATTERN`. -/
theorem loop_turn_filter (env : Env) (st : parse_state) (pat : String) :
    switch_ch env (getopt_effect st ⟨0, some pat, some 1⟩) ⟨0, some pat, some 1⟩ =
      match env.pcre_compile pat with
      | Except.ok re =>
        Except.ok
          { st with
            opts := { st.opts with ackmate_dir_filter := some re }, opt_index := 1 }
      | Except.error e => Except.error (outcome.exited 1 [output.log_err (pcre_message e.2 e.1)]) := by
  rfl

/-- A turn of the loop that goes on either comes from `--ackmate-dir-filter`, whose
pattern then compiled and is stored, or leaves the filter alone. -/
theorem loop_turn_filter_cases {env : Env} {st st1 : parse_state} {r : getopt_result}
    (hwf : report_wf r) (h : switch_ch env (getopt_effect st r) r = Except.ok st1) :
    (reports_long "ackmate-dir-filter" r = true ∧
        ∃ a re, r.optarg = some a ∧ env.pcre_compile a = Except.ok re ∧
          st1.opts.ackmate_dir_filter = some re) ∨
      (reports_long "ackmate-dir-filter" r = false ∧
        st1.opts.ackmate_dir_filter = st.opts.ackmate_dir_filter) := by
  have hkeep := (getopt_effect_untouched st r).2.2
  have hnot : select_arm r.ch ≠ switch_arm.case_0 →
      reports_long "ackmate-dir-filter" r = false := by
    intro harm
    cases hrep : reports_long "ackmate-dir-filter" r with
    | false => rfl
    | true =>
      have := (report_wf_filter hwf hrep).2
      rw [this] at harm
      exact absurd rfl harm
  rcases switch_ch_ok h with ⟨harm, a, _, rfl⟩ | ⟨harm, a, _, rfl⟩ | ⟨harm, a, _, rfl⟩ |
    ⟨harm, h0⟩ | h5
  · exact Or.inr ⟨hnot (by rw [harm]; decide), hkeep⟩
  · exact Or.inr ⟨hnot (by rw [harm]; decide), hkeep⟩
  · exact Or.inr ⟨hnot (by rw [harm]; decide), hkeep⟩
  · obtain ⟨i, hl, _⟩ := report_wf_case_0 hwf harm
    have hidx := getopt_effect_opt_index st r i hl
    rcases case_long_option_ok h0 with ⟨hname, a, re, ha, hc, rfl⟩ | ⟨hname, rfl⟩
    · rw [hidx] at hname
      exact Or.inl ⟨by unfold reports_long; rw [hl]; simp [hname], a, re, ha, hc, rfl⟩
    · rw [hidx] at hname
      exact Or.inr ⟨by unfold reports_long; rw [hl]; simp [hname], hkeep⟩
  · exact Or.inr ⟨hnot h5.2.2.2.2.2.2.2, by rw [h5.2.2.2.2.1, hkeep]⟩

/-- After the loop the filter is the compiled pattern of the last
`--ackmate-dir-filter`, and is untouched when there is none. -/
theorem option_loop_filter {env : Env} {rs : List getopt_result} {st st2 : parse_state}
    (hwf : ∀ r ∈ rs, report_wf r) (h : option_loop env st rs = Except.ok st2) :
    match (filter_flags rs).getLast? with
    | none => st2.opts.ackmate_dir_filter = st.opts.ackmate_dir_filter
    | some x =>
      ∃ a re, x.optarg = some a ∧ env.pcre_compile a = Except.ok re ∧
        st2.opts.ackmate_dir_filter = some re := by
  induction rs generalizing st with
  | nil =>
    simp only [option_loop, Except.ok.injEq] at h
    subst h
    rfl
  | cons r rs ih =>
    obtain ⟨st1, h1, h2⟩ := option_loop_cons h
    have ih2 := ih (fun x hx => hwf x (List.mem_cons_of_mem _ hx)) h2
    have hturn := loop_turn_filter_cases (hwf r (List.mem_cons_self _ _)) h1
    unfold filter_flags at ih2 ⊢
    rw [List.filter_cons]
    rcases hturn with ⟨hrep, a, re, ha, hc, hst1⟩ | ⟨hrep, hst1⟩
    · simp only [hrep, if_true, List.getLast?_cons]
      cases hl : (List.filter (fun r => reports_long "ackmate-dir-filter" r) rs).getLast? with
      | none =>
        rw [hl] at ih2
        exact ⟨a, re, ha, hc, by rw [ih2, hst1]⟩
      | some x =>
        rw [hl] at ih2
        exact ih2
    · simp only [hrep, Bool.false_eq_true, if_false]
      cases hl : (List.filter (fun r => reports_long "ackmate-dir-filter" r) rs).getLast? with
      | none =>
        rw [hl] at ih2
        simp only
        rw [ih2, hst1]
      | some x =>
        rw [hl] at ih2
        exact ih2

theorem normalize_ackmate_dir_filter (env : Env) (st : parse_state) :
    (normalize env st).ackmate_dir_filter = st.opts.ackmate_dir_filter := by
  unfold normalize apply_isatty apply_ackmate apply_context apply_group
  split_ifs <;> rfl

/-- Where the error report comes from: a letter that is not in the option string, a
long name that the table does not resolve, and a value attached to a long flag that
takes no argument. -/
theorem getopt_error_sources (next : Option String) :
    (∀ c rest, short_lookup optstring.toList c = none →
        (scan_short next (c :: rest)).1.head? = some getopt_error) ∧
      (∀ body, long_lookup longopts (body.takeWhile (fun c => c != '=')) = none →
        scan_long next body = (getopt_error, false)) ∧
      (∀ body i v, long_lookup longopts (body.takeWhile (fun c => c != '=')) = some i →
        attached_value body = some v →
        (table_row longopts i).has_arg = arg_kind.no_argument →
        scan_long next body = (getopt_error, false)) := by
  refine ⟨?_, ?_, ?_⟩
  · intro c rest h
    rw [scan_short_cons, h]
    rfl
  · intro body h
    unfold scan_long
    rw [h]
  · intro body i v h hv hno
    unfold scan_long
    rw [h]
    simp only [hv, hno, if_true]

/-! ## The claims -/

/-- C1. Whenever `parse_options` returns with `opts.context > 0`, both `opts.before`
and `opts.after` equal `opts.context`, whatever `-A`/`-B` values the argument vector
also carries and in whatever order. -/
theorem context_overrides_before_and_after (env : Env) (argv : List String)
    (r : parse_result) (h : parse_options env argv = outcome.returned r)
    (hc : 0 < r.opts.context) :
    r.opts.before = r.opts.context ∧ r.opts.after = r.opts.context := by
  obtain ⟨st, _, _, _, hopts, _⟩ := parse_options_returned h
  rw [hopts, normalize_context] at hc
  simp only [hopts, normalize_before, normalize_after, normalize_context, if_pos hc, and_self]

/-- A run with `-A 7 -C 3 --before=9` on which the hypotheses above hold. -/
theorem context_overrides_before_and_after_witness :
    ∃ r, parse_options (sample_env true) ["ag", "-A", "7", "-C", "3", "--before=9", "foo"] =
        outcome.returned r ∧ 0 < r.opts.context ∧
      r.opts.before = r.opts.context ∧ r.opts.after = r.opts.context :=
  ⟨⟨{ init_options with after := 3, before := 3, context := 3 }, "foo", ".", false⟩,
    by decide, by decide,
    context_overrides_before_and_after (sample_env true)
      ["ag", "-A", "7", "-C", "3", "--before=9", "foo"] _ (by decide) (by decide)⟩

/-- C2 does not hold of the code: a path argument ending in `/` comes back with the
`/` still in place, for the one-character path `/` as for `foo/bar/`. -/
theorem trailing_slash_is_kept :
    parse_options (sample_env true) ["ag", "foo", "/"] =
        outcome.returned ⟨init_options, "foo", "/", false⟩ ∧
      parse_options (sample_env true) ["ag", "foo", "foo/bar/"] =
        outcome.returned ⟨init_options, "foo", "foo/bar/", false⟩ := by
  decide

/-- C3. Whenever `parse_options` returns: a second positional token that does not end
in `/` (the empty token included) is returned unchanged as the path, and without a
second positional token the path is `.`. -/
theorem path_is_second_token_or_dot (env : Env) (argv : List String) (r : parse_result)
    (h : parse_options env argv = outcome.returned r) :
    (∀ q, (remaining_args env argv)[1]? = some q → ¬ ends_in_slash q → r.path = q) ∧
      ((remaining_args env argv)[1]? = none → r.path = ".") := by
  obtain ⟨st, _, _, _, _, _, _, hpath⟩ := parse_options_returned h
  constructor
  · intro q hq _
    rw [hpath, hq]
    rfl
  · intro hq
    rw [hpath, hq]
    rfl

/-- A run with the empty string as second positional token. -/
theorem path_is_second_token_or_dot_witness :
    ∃ r, parse_options (sample_env false) ["ag", "-i", "foo", ""] = outcome.returned r ∧
      (remaining_args (sample_env false) ["ag", "-i", "foo", ""])[1]? = some "" ∧
      ¬ ends_in_slash "" ∧ r.path = "" :=
  ⟨⟨{ init_options with casing := case_behavior.CASE_INSENSITIVE, color := 0 }, "foo", "", false⟩,
    by decide, by decide, by decide,
    (path_is_second_token_or_dot (sample_env false) ["ag", "-i", "foo", ""] _
      (by decide)).1 "" (by decide) (by decide)⟩

/-- C4. Whenever `parse_options` returns and `--ackmate` was given, `opts.color` is `0`
and `opts.print_break` is `1`, whatever `--color`, `--nobreak` or `--nogroup` flags the
vector carries and whether or not standard output is a terminal. -/
theorem ackmate_forces_color_and_break (env : Env) (argv : List String) (r : parse_result)
    (h : parse_options env argv = outcome.returned r)
    (hack : long_given "ackmate" (option_reports env argv)) :
    r.opts.color = 0 ∧ r.opts.print_break = 1 := by
  obtain ⟨st, hloop, _, _, hopts, _⟩ := parse_options_returned h
  have hst : st.opts.ackmate = 1 := by
    rw [option_loop_ackmate hloop, if_pos hack]
  rw [hopts, normalize_color, normalize_print_break, hst]
  simp

/-- A run with `--ackmate` next to `--nogroup`, `--nobreak` and `--color`. -/
theorem ackmate_forces_color_and_break_witness :
    ∃ r, parse_options (sample_env true)
        ["ag", "--ackmate", "--nogroup", "--nobreak", "--color", "foo"] = outcome.returned r ∧
      long_given "ackmate" (option_reports (sample_env true)
        ["ag", "--ackmate", "--nogroup", "--nobreak", "--color", "foo"]) ∧
      r.opts.color = 0 ∧ r.opts.print_break = 1 :=
  ⟨⟨{ init_options with ackmate := 1, color := 0, print_heading := 0 }, "foo", ".", false⟩,
    by decide, by decide,
    ackmate_forces_color_and_break (sample_env true)
      ["ag", "--ackmate", "--nogroup", "--nobreak", "--color", "foo"] _ (by decide) (by decide)⟩

/-- C5. Whenever `parse_options` returns and standard output is not a terminal,
`opts.color` is `0`, however often `--color` appears in the vector. -/
theorem no_terminal_no_color (env : Env) (argv : List String) (r : parse_result)
    (h : parse_options env argv = outcome.returned r) (htty : env.isatty = false) :
    r.opts.color = 0 := by
  obtain ⟨st, _, _, _, hopts, _⟩ := parse_options_returned h
  rw [hopts, normalize_color]
  simp [htty]

/-- A run with `--color` twice and standard output not a terminal. -/
theorem no_terminal_no_color_witness :
    ∃ r, parse_options (sample_env false) ["ag", "--color", "foo", "--color"] =
        outcome.returned r ∧ (sample_env false).isatty = false ∧ r.opts.color = 0 :=
  ⟨⟨{ init_options with color := 0 }, "foo", ".", false⟩, by decide, by decide,
    no_terminal_no_color (sample_env false) ["ag", "--color", "foo", "--color"] _
      (by decide) (by decide)⟩

/-- C6. Whenever `parse_options` returns and `--nogroup` is not the last of the
`--group`/`--nogroup` flags given (none given included), `opts.print_heading` and
`opts.print_break` are both `1`, even if `--noheading` or `--nobreak` appears. -/
theorem group_turns_heading_and_break_on (env : Env) (argv : List String) (r : parse_result)
    (h : parse_options env argv = outcome.returned r)
    (hg : ¬ nogroup_last (option_reports env argv)) :
    r.opts.print_heading = 1 ∧ r.opts.print_break = 1 := by
  obtain ⟨st, hloop, _, _, hopts, _⟩ := parse_options_returned h
  have hst : st.group = 1 := by
    rw [option_loop_group hloop]
    exact group_after_of_not_nogroup_last hg
  rw [hopts, normalize_print_heading, normalize_print_break, hst]
  simp

/-- A run with `--group` behind `--nogroup`, and `--noheading` and `--nobreak` after both. -/
theorem group_turns_heading_and_break_on_witness :
    ∃ r, parse_options (sample_env true)
        ["ag", "--nogroup", "--group", "--noheading", "--nobreak", "foo"] =
        outcome.returned r ∧
      ¬ nogroup_last (option_reports (sample_env true)
        ["ag", "--nogroup", "--group", "--noheading", "--nobreak", "foo"]) ∧
      r.opts.print_heading = 1 ∧ r.opts.print_break = 1 :=
  ⟨⟨init_options, "foo", ".", false⟩, by decide, by decide,
    group_turns_heading_and_break_on (sample_env true)
      ["ag", "--nogroup", "--group", "--noheading", "--nobreak", "foo"] _
      (by decide) (by decide)⟩

/-- C7, as stated, fails: with `--nogroup --ackmate` the run returns with
`opts.print_break` equal to `1`, although `--nogroup` is the last group flag. -/
theorem nogroup_with_ackmate_keeps_break :
    nogroup_last (option_reports (sample_env true) ["ag", "--nogroup", "--ackmate", "foo"]) ∧
      parse_options (sample_env true) ["ag", "--nogroup", "--ackmate", "foo"] =
        outcome.returned
          ⟨{ init_options with ackmate := 1, color := 0, print_heading := 0, print_break := 1 },
            "foo", ".", false⟩ := by
  decide

/-- C7, amended. Whenever `parse_options` returns and `--nogroup` is the last of the
`--group`/`--nogroup` flags, `opts.print_heading` is `0`, and `opts.print_break` is `0`
unless `--ackmate` was given, in which case it is `1`. -/
theorem nogroup_turns_heading_and_break_off (env : Env) (argv : List String)
    (r : parse_result) (h : parse_options env argv = outcome.returned r)
    (hg : nogroup_last (option_reports env argv)) :
    r.opts.print_heading = 0 ∧
      r.opts.print_break = if long_given "ackmate" (option_reports env argv) then 1 else 0 := by
  obtain ⟨st, hloop, _, _, hopts, _⟩ := parse_options_returned h
  have hst : st.group = 0 := by
    rw [option_loop_group hloop]
    exact group_after_of_nogroup_last hg _
  have hack := option_loop_ackmate hloop
  rw [hopts, normalize_print_heading, normalize_print_break, hst, hack]
  by_cases hgiven : long_given "ackmate" (option_reports env argv)
  · simp [hgiven]
  · simp [hgiven, initial_state, init_options]

/-- A run with `--nogroup` behind `--group` and without `--ackmate`. -/
theorem nogroup_turns_heading_and_break_off_witness :
    ∃ r, parse_options (sample_env true) ["ag", "--group", "--break", "--nogroup", "foo"] =
        outcome.returned r ∧
      nogroup_last (option_reports (sample_env true)
        ["ag", "--group", "--break", "--nogroup", "foo"]) ∧
      r.opts.print_heading = 0 ∧
      r.opts.print_break =
        if long_given "ackmate" (option_reports (sample_env true)
          ["ag", "--group", "--break", "--nogroup", "foo"]) then 1 else 0 :=
  ⟨⟨{ init_options with print_heading := 0, print_break := 0 }, "foo", ".", false⟩,
    by decide, by decide,
    nogroup_turns_heading_and_break_off (sample_env true)
      ["ag", "--group", "--break", "--nogroup", "foo"] _ (by decide) (by decide)⟩

/-- C8, as stated, fails: `-C` followed by the decimal numeral of `2 ^ 32` returns with
`context` and `before` at `0`, since the value does not fit the `int` that `atoi`
returns. -/
theorem context_numeral_out_of_range :
    ∃ r, parse_options (sample_env true)
        ["ag", "-C", toString (4294967296 : Nat), "foo", "/bar"] = outcome.returned r ∧
      r.opts.context = 0 ∧ r.opts.before ≠ 4294967296 :=
  ⟨⟨init_options, "foo", "/bar", false⟩, by decide, by decide, by decide⟩

/-- C8, amended. For every `n` with `0 < n < 2 ^ 31` written in decimal, every pattern
token `p` and path token `q` that do not start with a dash, `q` not ending in `/`, and
provided the word the code reads at `path[strlen q - 1]` is not 47, parsing
`-C n p q` returns with `context`, `before` and `after` equal to `n`, pattern `p` and
path `q`; all other fields keep their defaults, `color` following the terminal. -/
theorem context_round_trip (env : Env) (prog p q : String) (n : Nat) (hpos : 0 < n)
    (hint : n < 2 ^ 31) (hp : plain_token p) (hq : plain_token q) (_hslash : ¬ ends_in_slash q)
    (hcell : 0 < strlen q → env.path_cell (strlen q - 1) ≠ 47) :
    parse_options env [prog, "-C", toString n, p, q] =
      outcome.returned
        ⟨{ init_options with
            context := n, before := n, after := n, color := if env.isatty then 1 else 0 },
          p, q, false⟩ := by
  have hcond : ¬ (0 < strlen q ∧ env.path_cell (strlen q - 1) = 47) := fun h => hcell h.1 h.2
  have hn : (0 : Int) < (n : Int) := by exact_mod_cast hpos
  simp only [parse_options, option_reports, remaining_args, List.tail_cons,
    getopt_long_short_C_two env.posixly_correct (toString n) p q hp hq]
  simp [option_loop, getopt_effect, switch_ch, select_arm, with_optarg, set_opts,
    atoi_toString n hint, initial_state, init_options, after_loop, apply_group, apply_context,
    apply_ackmate, apply_isatty, extract_positionals, hcond, hn]
  cases env.isatty <;> simp

/-- The run `-C 3 foo /bar`. -/
theorem context_round_trip_witness :
    ((0 < 3 ∧ 3 < 2 ^ 31) ∧ (plain_token "foo" ∧ plain_token "/bar") ∧
        ¬ ends_in_slash "/bar" ∧
        (0 < strlen "/bar" → (sample_env true).path_cell (strlen "/bar" - 1) ≠ 47)) ∧
      parse_options (sample_env true) ["ag", "-C", toString 3, "foo", "/bar"] =
        outcome.returned
          ⟨{ init_options with context := 3, before := 3, after := 3 }, "foo", "/bar", false⟩ :=
  ⟨by decide,
    context_round_trip (sample_env true) "ag" "foo" "/bar" 3 (by decide) (by decide)
      (by decide) (by decide) (by decide) (by decide)⟩

/-- C9 does not hold of the code: `--context=5` stores `2`, the `val` of the table row,
and the attached `5` is never read, whereas `-C 5` stores `5`. -/
theorem long_context_drops_its_value :
    parse_options (sample_env true) ["ag", "--context=5", "foo", "bar"] =
        outcome.returned
          ⟨{ init_options with context := 2, before := 2, after := 2 }, "foo", "bar", false⟩ ∧
      parse_options (sample_env true) ["ag", "-C", "5", "foo", "bar"] =
        outcome.returned
          ⟨{ init_options with context := 5, before := 5, after := 5 }, "foo", "bar", false⟩ := by
  decide

/-- C10 does not hold of the code: `h` is missing from the option string, so `-h` is
reported as an unknown option and the run ends with usage and status `1`, whereas
`--help` ends with usage and status `0`. -/
theorem short_h_is_rejected :
    parse_options (sample_env true) ["ag", "-h"] = outcome.exited 1 [output.usage] ∧
      parse_options (sample_env true) ["ag", "--help"] = outcome.exited 0 [output.usage] := by
  decide

/-- C11, as stated, fails: `--help` followed by a flag that is not registered ends
with status `1`, not `0`. -/
theorem help_then_unknown_flag_exits_1 :
    long_given "help" (option_reports (sample_env true) ["ag", "--help", "--nosuchflag"]) ∧
      parse_options (sample_env true) ["ag", "--help", "--nosuchflag"] =
        outcome.exited 1 [output.usage] := by
  decide

/-- C11, amended. For every argument vector in which `--help` is given and whose flags
all pass the dispatch (the option loop runs to its end), `parse_options` writes the
usage text and ends with status `0`, whatever other flags and positional tokens the
vector holds, none included. -/
theorem help_exits_0_after_dispatch (env : Env) (argv : List String) (st : parse_state)
    (hhelp : long_given "help" (option_reports env argv))
    (hloop : option_loop env initial_state (option_reports env argv) = Except.ok st) :
    parse_options env argv = outcome.exited 0 [output.usage] := by
  have hlen : ¬ argv.length < 2 := by
    intro hshort
    obtain ⟨r, hr, _⟩ := hhelp
    rw [option_reports_of_short env argv hshort] at hr
    cases hr
  have hst : st.help = 1 := option_loop_help hloop (Or.inr hhelp)
  rw [parse_options_of_loop hlen hloop]
  unfold after_loop
  simp [hst]

/-- The run `-i --help --version`, without any positional token. -/
theorem help_exits_0_after_dispatch_witness :
    long_given "help" (option_reports (sample_env true) ["ag", "-i", "--help", "--version"]) ∧
      parse_options (sample_env true) ["ag", "-i", "--help", "--version"] =
        outcome.exited 0 [output.usage] :=
  ⟨by decide,
    help_exits_0_after_dispatch (sample_env true) ["ag", "-i", "--help", "--version"]
      { initial_state with
        opts := { init_options with casing := case_behavior.CASE_INSENSITIVE },
        help := 1, version := 1, opt_index := 25 }
      (by decide) rfl⟩

/-- C12, as stated, fails: `-A -5 foo` returns with `opts.after` equal to `-5`. -/
theorem negative_after_is_stored :
    parse_options (sample_env true) ["ag", "-A", "-5", "foo"] =
      outcome.returned ⟨{ init_options with after := -5 }, "foo", ".", false⟩ := by
  decide

/-- C12, amended. Whenever `parse_options` returns and every value given to
`-A`/`--after` and `-B`/`--before` is read by `atoi` as a number that is not negative,
`opts.before` and `opts.after` are not negative. -/
theorem before_and_after_not_negative (env : Env) (argv : List String) (r : parse_result)
    (h : parse_options env argv = outcome.returned r)
    (hcounts : line_counts_not_negative (option_reports env argv)) :
    0 ≤ r.opts.before ∧ 0 ≤ r.opts.after := by
  obtain ⟨st, hloop, _, _, hopts, _⟩ := parse_options_returned h
  have hst := option_loop_line_counts hloop hcounts
    (show 0 ≤ initial_state.opts.before ∧ 0 ≤ initial_state.opts.after by decide)
  rw [hopts, normalize_before, normalize_after]
  constructor <;> split_ifs with hc
  · exact le_of_lt hc
  · exact hst.1
  · exact le_of_lt hc
  · exact hst.2

/-- The run `-A 2 --before=7 -C 0 foo`. -/
theorem before_and_after_not_negative_witness :
    ∃ r, parse_options (sample_env true) ["ag", "-A", "2", "--before=7", "-C", "0", "foo"] =
        outcome.returned r ∧
      line_counts_not_negative (option_reports (sample_env true)
        ["ag", "-A", "2", "--before=7", "-C", "0", "foo"]) ∧
      0 ≤ r.opts.before ∧ 0 ≤ r.opts.after :=
  ⟨⟨{ init_options with after := 2, before := 7 }, "foo", ".", false⟩, by decide, by decide,
    before_and_after_not_negative (sample_env true)
      ["ag", "-A", "2", "--before=7", "-C", "0", "foo"] _ (by decide) (by decide)⟩

/-- C13. For `-A`/`--after` and `-B`/`--before` followed by a text `a` and a pattern
token `p`, the run returns with `atoi a` stored in `after` (resp. `before`) and every
other field at its default (`color` following the terminal), pattern `p`, path `.`.
A text without leading decimal integer is stored as `0`, without error or exit; the
decimal numeral of `n < 2 ^ 31` is stored as `n`. -/
theorem after_and_before_store_atoi (env : Env) (prog a p : String) (hp : plain_token p) :
    (parse_options env [prog, "-A", a, p] =
        outcome.returned
          ⟨{ init_options with after := atoi a, color := if env.isatty then 1 else 0 },
            p, ".", false⟩ ∧
      parse_options env [prog, "--after", a, p] =
        outcome.returned
          ⟨{ init_options with after := atoi a, color := if env.isatty then 1 else 0 },
            p, ".", false⟩ ∧
      parse_options env [prog, "-B", a, p] =
        outcome.returned
          ⟨{ init_options with before := atoi a, color := if env.isatty then 1 else 0 },
            p, ".", false⟩ ∧
      parse_options env [prog, "--before", a, p] =
        outcome.returned
          ⟨{ init_options with before := atoi a, color := if env.isatty then 1 else 0 },
            p, ".", false⟩) ∧
      (non_numeric a → atoi a = 0) ∧ (∀ n : Nat, n < 2 ^ 31 → atoi (toString n) = n) := by
  refine ⟨⟨?_, ?_, ?_, ?_⟩, atoi_non_numeric, atoi_toString⟩
  · rw [parse_options_one_report env [prog, "-A", a, p] ⟨65, some a, none⟩ p _ (by simp)
      (getopt_long_flag_arg_then_pattern _ "-A" a p _ (getopt_long_short_A _ a) hp)
      (loop_turn_A env initial_state a none (Or.inl rfl)) rfl rfl]
    cases htty : env.isatty <;>
      simp [normalize, apply_isatty, apply_ackmate, apply_context, apply_group, htty,
        initial_state, init_options]
  · rw [parse_options_one_report env [prog, "--after", a, p] ⟨65, some a, some 2⟩ p _ (by simp)
      (getopt_long_flag_arg_then_pattern _ "--after" a p _ (getopt_long_after _ a) hp)
      (loop_turn_A env initial_state a (some 2) (Or.inr rfl)) rfl rfl]
    cases htty : env.isatty <;>
      simp [normalize, apply_isatty, apply_ackmate, apply_context, apply_group, htty,
        initial_state, init_options]
  · rw [parse_options_one_report env [prog, "-B", a, p] ⟨66, some a, none⟩ p _ (by simp)
      (getopt_long_flag_arg_then_pattern _ "-B" a p _ (getopt_long_short_B _ a) hp)
      (loop_turn_B env initial_state a none (Or.inl rfl)) rfl rfl]
    cases htty : env.isatty <;>
      simp [normalize, apply_isatty, apply_ackmate, apply_context, apply_group, htty,
        initial_state, init_options]
  · rw [parse_options_one_report env [prog, "--before", a, p] ⟨66, some a, some 3⟩ p _
      (by simp) (getopt_long_flag_arg_then_pattern _ "--before" a p _ (getopt_long_before _ a) hp)
      (loop_turn_B env initial_state a (some 3) (Or.inr rfl)) rfl rfl]
    cases htty : env.isatty <;>
      simp [normalize, apply_isatty, apply_ackmate, apply_context, apply_group, htty,
        initial_state, init_options]

/-- The run `-A abc foo`. -/
theorem after_and_before_store_atoi_witness :
    (plain_token "foo" ∧ non_numeric "abc") ∧
      parse_options (sample_env true) ["ag", "-A", "abc", "foo"] =
        outcome.returned ⟨{ init_options with after := 0 }, "foo", ".", false⟩ :=
  ⟨by decide,
    (after_and_before_store_atoi (sample_env true) "ag" "abc" "foo" (by decide)).1.1⟩

/-- C14. With fewer than two elements in the argument vector, `parse_options` writes
the usage text and ends with status `1`; no element is looked at and nothing is
returned. -/
theorem too_few_arguments_exit_1 (env : Env) (argv : List String) (h : argv.length < 2) :
    parse_options env argv = outcome.exited 1 [output.usage] := by
  unfold parse_options
  rw [if_pos h]

/-- The vector that holds the program name only. -/
theorem too_few_arguments_exit_1_witness :
    ["ag"].length < 2 ∧ parse_options (sample_env true) ["ag"] = outcome.exited 1 [output.usage] :=
  ⟨by decide, too_few_arguments_exit_1 (sample_env true) ["ag"] (by decide)⟩

/-- C15. When the dispatcher gets as far as a flag that `getopt_long` reports as an
error (a letter or long name that is not registered, or a long flag without argument
written with a value), `parse_options` writes the usage text and ends with status `1`
and returns nothing, whatever was given in front of it, `--help` and `--version`
included. -/
theorem unknown_flag_exits_1 (env : Env) (argv : List String)
    (pre post : List getopt_result) (st : parse_state)
    (hsplit : option_reports env argv = pre ++ getopt_error :: post)
    (hpre : option_loop env initial_state pre = Except.ok st) :
    parse_options env argv = outcome.exited 1 [output.usage] := by
  have hlen : ¬ argv.length < 2 := by
    intro hshort
    rw [option_reports_of_short env argv hshort] at hsplit
    cases pre <;> cases hsplit
  apply parse_options_of_loop_error hlen
  rw [hsplit, option_loop_append, hpre]
  rfl

/-- The run `--help --version --ackmate=x -Z foo`. -/
theorem unknown_flag_exits_1_witness :
    option_reports (sample_env true) ["ag", "--help", "--version", "--ackmate=x", "-Z", "foo"] =
        [⟨0, none, some 18⟩, ⟨0, none, some 25⟩] ++ getopt_error :: [getopt_error] ∧
      parse_options (sample_env true) ["ag", "--help", "--version", "--ackmate=x", "-Z", "foo"] =
        outcome.exited 1 [output.usage] :=
  ⟨by decide,
    unknown_flag_exits_1 (sample_env true)
      ["ag", "--help", "--version", "--ackmate=x", "-Z", "foo"]
      [⟨0, none, some 18⟩, ⟨0, none, some 25⟩] [getopt_error]
      { initial_state with help := 1, version := 1, opt_index := 25 } (by decide) rfl⟩

/-- C16. With the regex compiler a function that yields a compiled value or a message
and an offset: when the dispatcher gets as far as `--ackmate-dir-filter PATTERN` and
PATTERN does not compile, `parse_options` logs the error with that offset and message
and ends with status `1`; when PATTERN compiles, the loop goes on with the compiled
value stored; and whenever `parse_options` returns, `opts.ackmate_dir_filter` holds the
compiled value of the last such flag, and nothing when there was no such flag. -/
theorem ackmate_dir_filter_contract (env : Env) (argv : List String) :
    (∀ pre post r pat msg offset st,
        option_reports env argv = pre ++ r :: post →
        reports_long "ackmate-dir-filter" r = true → r.optarg = some pat →
        option_loop env initial_state pre = Except.ok st →
        env.pcre_compile pat = Except.error (msg, offset) →
        parse_options env argv =
          outcome.exited 1
            [output.log_err
              ("pcre_compile of ackmate-dir-filter failed at position " ++ toString offset ++
                ". Error: " ++ msg)]) ∧
      (∀ pre post r pat re st,
        option_reports env argv = pre ++ r :: post →
        reports_long "ackmate-dir-filter" r = true → r.optarg = some pat →
        option_loop env initial_state pre = Except.ok st →
        env.pcre_compile pat = Except.ok re →
        option_loop env initial_state (pre ++ [r]) =
          Except.ok
            { st with
              opts := { st.opts with ackmate_dir_filter := some re }, opt_index := 1 }) ∧
      (∀ res, parse_options env argv = outcome.returned res →
        match (filter_flags (option_reports env argv)).getLast? with
        | none => res.opts.ackmate_dir_filter = none
        | some x =>
          ∃ pat re, x.optarg = some pat ∧ env.pcre_compile pat = Except.ok re ∧
            res.opts.ackmate_dir_filter = some re) := by
  have hshape : ∀ pre post r pat, option_reports env argv = pre ++ r :: post →
      reports_long "ackmate-dir-filter" r = true → r.optarg = some pat →
      r = ⟨0, some pat, some 1⟩ ∧ ¬ argv.length < 2 := by
    intro pre post r pat hsplit hrep hopt
    have hmem : r ∈ option_reports env argv := by
      rw [hsplit]
      exact List.mem_append_right _ (List.mem_cons_self _ _)
    obtain ⟨hl, hch⟩ := report_wf_filter (option_reports_wf env argv r hmem) hrep
    constructor
    · obtain ⟨ch, oa, li⟩ := r
      simp only at hl hch hopt
      rw [hl, hch, hopt]
    · intro hshort
      rw [option_reports_of_short env argv hshort] at hmem
      cases hmem
  refine ⟨?_, ?_, ?_⟩
  · intro pre post r pat msg offset st hsplit hrep hopt hpre hc
    obtain ⟨rfl, hlen⟩ := hshape pre post r pat hsplit hrep hopt
    apply parse_options_of_loop_error hlen
    rw [hsplit, option_loop_append, hpre]
    simp only [option_loop, loop_turn_filter, hc]
    rfl
  · intro pre post r pat re st hsplit hrep hopt hpre hc
    obtain ⟨rfl, _⟩ := hshape pre post r pat hsplit hrep hopt
    rw [option_loop_append, hpre]
    simp only [option_loop, loop_turn_filter, hc]
  · intro res hres
    obtain ⟨st, hloop, _, _, hopts, _⟩ := parse_options_returned hres
    have hlast := option_loop_filter (option_reports_wf env argv) hloop
    rw [hopts, normalize_ackmate_dir_filter]
    exact hlast

/-- The run `--ackmate --ackmate-dir-filter ( foo`, whose pattern does not compile. -/
theorem ackmate_dir_filter_contract_witness :
    parse_options (sample_env true) ["ag", "--ackmate", "--ackmate-dir-filter", "(", "foo"] =
      outcome.exited 1
        [output.log_err
          "pcre_compile of ackmate-dir-filter failed at position 1. Error: missing )"] :=
  (ackmate_dir_filter_contract (sample_env true)
    ["ag", "--ackmate", "--ackmate-dir-filter", "(", "foo"]).1
    [⟨0, none, some 0⟩] [] ⟨0, some "(", some 1⟩ "(" "missing )" 1
    { initial_state with opts := { init_options with ackmate := 1 } }
    (by decide) (by decide) rfl rfl rfl

/-- C17. With standard output a terminal and a pattern token `p`, `-i p` and
`--ignore-case p` return the same configuration: the one of `init_options` with
`casing` set to `CASE_INSENSITIVE` and every other field at its default, the defaults
being those listed last. -/
theorem ignore_case_short_and_long (env : Env) (prog p : String) (htty : env.isatty = true)
    (hp : plain_token p) :
    parse_options env [prog, "-i", p] =
        outcome.returned
          ⟨{ init_options with casing := case_behavior.CASE_INSENSITIVE }, p, ".", false⟩ ∧
      parse_options env [prog, "--ignore-case", p] =
        outcome.returned
          ⟨{ init_options with casing := case_behavior.CASE_INSENSITIVE }, p, ".", false⟩ ∧
      init_options =
        { ackmate := 0, ackmate_dir_filter := none, after := 0, before := 0,
          casing := case_behavior.CASE_SENSITIVE, color := 1, column := 0, context := 0,
          follow_symlinks := 0, invert_match := 0, literal := 0, print_break := 1,
          print_filename_only := 0, print_heading := 1, recurse_dirs := 1, stats := 0 } := by
  refine ⟨?_, ?_, rfl⟩
  · rw [parse_options_one_report env [prog, "-i", p] ⟨105, none, none⟩ p _ (by simp)
      (getopt_long_flag_then_pattern _ "-i" p _ (getopt_long_short_i _) hp)
      (loop_turn_i env initial_state none (Or.inl rfl)) rfl rfl]
    simp [normalize, apply_isatty, apply_ackmate, apply_context, apply_group, htty,
      initial_state, init_options]
  · rw [parse_options_one_report env [prog, "--ignore-case", p] ⟨105, none, some 19⟩ p _
      (by simp) (getopt_long_flag_then_pattern _ "--ignore-case" p _ (getopt_long_ignore_case _) hp)
      (loop_turn_i env initial_state (some 19) (Or.inr rfl)) rfl rfl]
    simp [normalize, apply_isatty, apply_ackmate, apply_context, apply_group, htty,
      initial_state, init_options]

/-- The runs `-i foo` and `--ignore-case foo` on a terminal. -/
theorem ignore_case_short_and_long_witness :
    ((sample_env true).isatty = true ∧ plain_token "foo") ∧
      parse_options (sample_env true) ["ag", "-i", "foo"] =
        outcome.returned
          ⟨{ init_options with casing := case_behavior.CASE_INSENSITIVE }, "foo", ".", false⟩ :=
  ⟨by decide, (ignore_case_short_and_long (sample_env true) "ag" "foo" (by decide)
    (by decide)).1⟩

/-- C18. Whenever `parse_options` returns, `opts.color` is set exactly when standard
output is a terminal, `--ackmate` was not given, and either no `--color`/`--nocolor`
flag was given or the last of them is `--color`. -/
theorem color_iff_terminal_no_ackmate_color_last (env : Env) (argv : List String)
    (r : parse_result) (h : parse_options env argv = outcome.returned r) :
    r.opts.color ≠ 0 ↔
      env.isatty = true ∧ ¬ long_given "ackmate" (option_reports env argv) ∧
        color_left_on (option_reports env argv) := by
  obtain ⟨st, hloop, _, _, hopts, _⟩ := parse_options_returned h
  have hack := option_loop_ackmate hloop
  have hcol := option_loop_color hloop
  have hiff := color_after_ne_zero_iff (option_reports env argv)
  rw [hopts, normalize_color, hack, hcol]
  by_cases hgiven : long_given "ackmate" (option_reports env argv)
  · simp [hgiven]
  · cases htty : env.isatty
    · simp
    · simpa [hgiven, initial_state, init_options] using hiff

/-- A run with `--color` behind `--nocolor` on a terminal. -/
theorem color_iff_terminal_no_ackmate_color_last_witness :
    ∃ r, parse_options (sample_env true) ["ag", "--nocolor", "--color", "foo"] =
        outcome.returned r ∧
      (r.opts.color ≠ 0 ↔
        (sample_env true).isatty = true ∧
          ¬ long_given "ackmate"
            (option_reports (sample_env true) ["ag", "--nocolor", "--color", "foo"]) ∧
          color_left_on
            (option_reports (sample_env true) ["ag", "--nocolor", "--color", "foo"])) :=
  ⟨⟨init_options, "foo", ".", false⟩, by decide,
    color_iff_terminal_no_ackmate_color_last (sample_env true)
      ["ag", "--nocolor", "--color", "foo"] _ (by decide)⟩

/-- C19. For an argument vector with at least one flag, whose flags all pass the
dispatch and leave `help` and `version` at `0`: without a positional token the run
reads the null pointer that closes `argv` and no pattern comes back; with one, the
read of element `0` is in bounds, every returning run has the first remaining token
as its pattern, and the run does return unless the store through the word at
`path[strlen path - 1]` takes place. -/
theorem pattern_is_first_remaining_token (env : Env) (argv : List String) (st : parse_state)
    (hflag : option_reports env argv ≠ [])
    (hloop : option_loop env initial_state (option_reports env argv) = Except.ok st)
    (hhelp : st.help = 0) (hversion : st.version = 0) :
    (remaining_args env argv = [] →
        parse_options env argv = outcome.undefined undefined_behavior.null_query) ∧
      (∀ q rest, remaining_args env argv = q :: rest →
        (remaining_args env argv)[0]? = some q ∧
          (∀ r, parse_options env argv = outcome.returned r → r.query = q) ∧
          ((∀ p, rest.head? = some p →
              ¬ (0 < strlen p ∧ env.path_cell (strlen p - 1) = 47)) →
            ∃ r, parse_options env argv = outcome.returned r ∧ r.query = q)) := by
  have hlen : ¬ argv.length < 2 := fun hshort => hflag (option_reports_of_short env argv hshort)
  constructor
  · intro hnone
    rw [parse_options_of_loop hlen hloop]
    unfold after_loop
    simp only [hhelp, hversion, ne_eq, not_true_eq_false, if_false]
    rw [hnone]
    rfl
  · intro q rest hsome
    refine ⟨by rw [hsome]; simp, ?_, ?_⟩
    · intro r hr
      have hq := (parse_options_returned hr).choose_spec.2.2.2.2.2.1
      rw [hsome] at hq
      simpa using hq.symm
    · intro hcell
      rw [parse_options_of_loop hlen hloop]
      unfold after_loop
      simp only [hhelp, hversion, ne_eq, not_true_eq_false, if_false]
      rw [hsome]
      cases rest with
      | nil => exact ⟨_, rfl, rfl⟩
      | cons p rest =>
        simp only [extract_positionals, if_neg (hcell p rfl)]
        exact ⟨_, rfl, rfl⟩

/-- The run `-i`, without any positional token. -/
theorem pattern_is_first_remaining_token_witness :
    option_reports (sample_env true) ["ag", "-i"] ≠ [] ∧
      remaining_args (sample_env true) ["ag", "-i"] = [] ∧
      parse_options (sample_env true) ["ag", "-i"] =
        outcome.undefined undefined_behavior.null_query :=
  ⟨by decide, by decide,
    (pattern_is_first_remaining_token (sample_env true) ["ag", "-i"]
      { initial_state with opts := { init_options with casing := case_behavior.CASE_INSENSITIVE } }
      (by decide) rfl (by decide) (by decide)).1 (by decide)⟩

/-- C20. The arm `case 0` never reaches the message `option ... does not take a value`:
every row of the table for which `getopt_long` returns `0` is the row of
`--ackmate-dir-filter` or has a flag pointer, and no run of `parse_options` that ends
through `exit` has logged that message. -/
theorem no_value_branch_unreachable (env : Env) (argv : List String) :
    (∀ i, i < longopts.length → long_return (table_row longopts i) = 0 →
        (table_row longopts i).name = "ackmate-dir-filter" ∨
          (table_row longopts i).flag ≠ none) ∧
      (∀ status out name, parse_options env argv = outcome.exited status out →
        output.log_err (no_value_message name) ∉ out) := by
  constructor
  · intro i hi h0
    rcases (long_row_facts i hi).1 h0 with ⟨hn, _, _⟩ | ⟨_, hf⟩
    · exact Or.inl hn
    · exact Or.inr hf
  · intro status out name h
    rcases parse_options_exited h with rfl | rfl | ⟨e, rfl⟩
    · simp
    · simp
    · simp only [List.mem_singleton, output.log_err.injEq]
      exact fun heq => pcre_message_ne_no_value_message e.2 e.1 name heq.symm

end Ag
